import Mathlib

/-!
Verification of the semantic-merge pass of the .lu/.qna parser
(`parseFileContents` module): entity registry, declaration handlers and
the utterance/pattern resolver, embedded shallowly from the source.
-/

namespace LuParse

/-- Stable error codes carried by parser exceptions (`enums/CLI-errors`). -/
inductive ErrCode where
  | INVALID_LINE
  | INVALID_URI
  | INVALID_INPUT
  | MISSING_LABELLED_VALUE
  | INVALID_COMPOSITE_ENTITY
  | SYNONYMS_NOT_A_LIST
  | INVALID_REGEX_ENTITY
  deriving DecidableEq, Repr

/-- A fatal parser error.  `ex code msg` embeds a thrown `exception` object
carrying a stable error code and a message; the `BuildDiagnostic` source-context
rendering is abstracted to the message text itself.  `jsRefError ident` embeds a
JavaScript `ReferenceError` raised when the source reads an identifier that is
not in scope. -/
inductive ParseErr where
  | ex (code : ErrCode) (msg : String)
  | jsRefError (ident : String)
  deriving DecidableEq, Repr

/-! String primitives mirroring the JavaScript operations the source uses,
implemented by structural recursion over the character list so that concrete
inputs evaluate by kernel reduction. -/

/-- Split a character list at every delimiter character satisfying `p`,
like the JS `split` with a character-class regex (adjacent delimiters and
string edges produce empty fields). -/
def splitCharsAux (p : Char → Bool) : List Char → List Char → List (List Char)
  | [], acc => [acc.reverse]
  | c :: rest, acc =>
      if p c then acc.reverse :: splitCharsAux p rest []
      else splitCharsAux p rest (c :: acc)

/-- String version of `splitCharsAux`. -/
def splitStr (p : Char → Bool) (s : String) : List String :=
  (splitCharsAux p s.data []).map (fun cs => String.mk cs)

/-- Leading/trailing-whitespace trim (JS `String.prototype.trim`). -/
def trimStr (s : String) : String :=
  String.mk (((s.data.dropWhile Char.isWhitespace).reverse.dropWhile
    Char.isWhitespace).reverse)

/-- Remove the first occurrence of character `c`
(JS `replace` with a single-character string pattern). -/
def removeFirstChar (c : Char) : List Char → List Char
  | [] => []
  | x :: xs => if x == c then xs else x :: removeFirstChar c xs

/-- Does `pat` occur at the front of `cs`? -/
def isPrefixOfCharList : List Char → List Char → Bool
  | [], _ => true
  | _ :: _, [] => false
  | p :: ps, c :: cs => p == c && isPrefixOfCharList ps cs

/-- Substring containment on character lists (JS `String.prototype.includes`). -/
def containsSub : List Char → List Char → Bool
  | [], pat => isPrefixOfCharList pat []
  | c :: cs, pat => isPrefixOfCharList pat (c :: cs) || containsSub cs pat

/-- Substring containment on strings. -/
def containsSubstr (s pat : String) : Bool :=
  containsSub s.data pat.data

/-- ASCII lower-casing (JS `toLowerCase`, restricted to the ASCII range the
source compares against). -/
def toLowerChar (c : Char) : Char :=
  if 'A' ≤ c ∧ c ≤ 'Z' then Char.ofNat (c.toNat + 32) else c

/-- String version of `toLowerChar`. -/
def toLowerStr (s : String) : String :=
  String.mk (s.data.map toLowerChar)

/-- One sublist of a list (closed-list) entity: a canonical form plus synonyms. -/
structure SubList where
  canonicalForm : String
  list : List String := []
  deriving DecidableEq, Repr

/-- A record in one of the registry's kind collections.  The source stores
heterogeneous ad hoc objects; the embedding gives the record every field used
anywhere, with the JS absent-field state as the default value. -/
structure Item where
  name : String
  roles : List String := []
  explicitList : List String := []
  children : List String := []
  regexPattern : String := ""
  subLists : List SubList := []
  words : String := ""
  mode : Bool := false
  activated : Bool := false
  deriving DecidableEq, Repr

/-- A pattern: an utterance template tied to an intent (`helperClass.pattern`). -/
structure PatternObj where
  pattern : String
  intent : String
  deriving DecidableEq, Repr

/-- An entity label inside an utterance (`helperClass.utteranceEntity`).
An absent role is embedded as the empty string. -/
structure UttEntity where
  entity : String
  startPos : Nat := 0
  endPos : Nat := 0
  role : String := ""
  deriving DecidableEq, Repr

/-- A labelled example utterance (`helperClass.uttereances`). -/
structure Utterance where
  text : String
  intent : String
  entities : List UttEntity := []
  deriving DecidableEq, Repr

/-- Modelled from the spec: the values of the entity-type enum
(`enums/lusiEntityTypes`, not under src/) — the seven declared kinds plus `ml`. -/
inductive EntityKind where
  | simple
  | list
  | composite
  | regex
  | prebuilt
  | patternAny
  | phraseList
  | ml
  deriving DecidableEq, Repr

/-- Modelled from the spec: the string value of each entity-type enum member. -/
def kindStr : EntityKind → String
  | .simple => "simple"
  | .list => "list"
  | .composite => "composite"
  | .regex => "regex"
  | .prebuilt => "prebuilt"
  | .patternAny => "patternAny"
  | .phraseList => "phraseList"
  | .ml => "ml"

/-- An entry of the flat name/role index (`helperClass.entityAndRoles`; the
class itself is not under src/ and its field set — `name`, `type`, `roles` — is
modelled from the spec and from its uses in `validateAndGetRoles`). -/
structure FlatItem where
  name : String
  type : EntityKind
  roles : List String := []
  deriving DecidableEq, Repr

/-- Modelled from the spec: the collection selectors of `enums/luisobjenum`
(`LUISObjNameEnum`, not under src/); each member names one registry collection. -/
inductive LUISObjNameEnum where
  | INTENT
  | ENTITIES
  | COMPOSITES
  | CLOSEDLISTS
  | REGEX
  | PREBUILT
  | PATTERNANYENTITY
  deriving DecidableEq, Repr

/-- An entity found inside an utterance line by the front end, as consumed by
`parseAndHandleIntent` (shape produced by `flattenLists`).  An absent role is
embedded as the empty string. -/
structure FoundEntity where
  entity : String
  type : LUISObjNameEnum
  role : String := ""
  value : String := ""
  startPos : Nat := 0
  endPos : Nat := 0
  deriving DecidableEq, Repr

/-- The consolidated intent-recognition model being built
(`parsedContent.LUISJsonStructure`). -/
structure LUISJsonStructure where
  intents : List Item := []
  entities : List Item := []
  composites : List Item := []
  closedLists : List Item := []
  regex_entities : List Item := []
  prebuiltEntities : List Item := []
  patternAnyEntities : List Item := []
  model_features : List Item := []
  patterns : List PatternObj := []
  utterances : List Utterance := []
  flatListOfEntityAndRoles : Option (List FlatItem) := none
  deriving DecidableEq, Repr

/-- The empty model at the start of a parse pass. -/
def emptyApp : LUISJsonStructure := {}

/-- Read the collection named by a `LUISObjNameEnum` member. -/
def getColl (s : LUISJsonStructure) : LUISObjNameEnum → List Item
  | .INTENT => s.intents
  | .ENTITIES => s.entities
  | .COMPOSITES => s.composites
  | .CLOSEDLISTS => s.closedLists
  | .REGEX => s.regex_entities
  | .PREBUILT => s.prebuiltEntities
  | .PATTERNANYENTITY => s.patternAnyEntities

/-- Write the collection named by a `LUISObjNameEnum` member. -/
def setColl (s : LUISJsonStructure) : LUISObjNameEnum → List Item → LUISJsonStructure
  | .INTENT, l => { s with intents := l }
  | .ENTITIES, l => { s with entities := l }
  | .COMPOSITES, l => { s with composites := l }
  | .CLOSEDLISTS, l => { s with closedLists := l }
  | .REGEX, l => { s with regex_entities := l }
  | .PREBUILT, l => { s with prebuiltEntities := l }
  | .PATTERNANYENTITY, l => { s with patternAnyEntities := l }

/-- Rewrite the first element satisfying `p` with `f`, keeping the rest; embeds
the source pattern of mutating the first `filter`/`find` result in place. -/
def updateFirst (p : α → Bool) (f : α → α) : List α → List α
  | [] => []
  | x :: xs => if p x then f x :: xs else x :: updateFirst p f xs

/-- `mergeRoles(src, tgt)`: push every target role that is not already in the
original source list.  The membership map is built once from `src` before the
loop, which the fold mirrors by testing `src` rather than the accumulator. -/
def mergeRoles (src tgt : List String) : List String :=
  tgt.foldl (fun acc role => if src.contains role then acc else acc ++ [role]) src

/-- One step of the source's recurring `forEach`/`push`-if-absent role merge,
where membership is tested against the growing list itself. -/
def pushUnique (acc : List String) (r : String) : List String :=
  if acc.contains r then acc else acc ++ [r]

/-- The source's recurring live role merge:
`src.forEach(role => !dst.includes(role) ? dst.push(role) : undefined)`. -/
def mergeUnique (dst src : List String) : List String :=
  src.foldl pushUnique dst

/-- `addItemIfNotPresent(collection, type, value)`: append a fresh record only
when no record of that name exists. -/
def addItemIfNotPresent (s : LUISJsonStructure) (ty : LUISObjNameEnum)
    (value : String) : LUISJsonStructure :=
  let coll := getColl s ty
  if coll.any (fun item => item.name == value) then s
  else setColl s ty (coll ++ [{ name := value }])

/-- `addItemOrRoleIfNotPresent(collection, type, value, roles)`: merge roles
into the first record of that name, or append a fresh record carrying the roles
(no roles are attached when the collection is the intent collection). -/
def addItemOrRoleIfNotPresent (s : LUISJsonStructure) (ty : LUISObjNameEnum)
    (value : String) (roles : List String) : LUISJsonStructure :=
  let coll := getColl s ty
  if coll.any (fun item => item.name == value) then
    setColl s ty (updateFirst (fun item => item.name == value)
      (fun item => { item with roles := mergeRoles item.roles roles }) coll)
  else
    setColl s ty (coll ++ [{ name := value,
                             roles := if ty == .INTENT then [] else roles }])

section MergeLemmas

theorem list_contains_iff (l : List String) (a : String) :
    l.contains a = true ↔ a ∈ l :=
  List.elem_iff

theorem mergeRoles_foldl_aux (src ts acc : List String) :
    ts.foldl (fun a role => if src.contains role then a else a ++ [role]) acc
      = acc ++ ts.filter (fun r => !(src.contains r)) := by
  induction ts generalizing acc with
  | nil => simp
  | cons t ts ih =>
    simp only [List.foldl_cons, List.filter_cons]
    by_cases h : src.contains t
    · have ht : t ∈ src := (list_contains_iff src t).1 h
      rw [if_pos h, ih acc]
      simp [h, ht]
    · have ht : t ∉ src := fun hm => h ((list_contains_iff src t).2 hm)
      rw [if_neg h, ih (acc ++ [t])]
      simp [h, ht]

theorem mergeRoles_eq_append_filter (src tgt : List String) :
    mergeRoles src tgt = src ++ tgt.filter (fun r => !(src.contains r)) :=
  mergeRoles_foldl_aux src tgt src

theorem mem_mergeRoles (src tgt : List String) (r : String) :
    r ∈ mergeRoles src tgt ↔ r ∈ src ∨ r ∈ tgt := by
  rw [mergeRoles_eq_append_filter]
  simp only [List.mem_append, List.mem_filter, Bool.not_eq_true',
    Bool.not_eq_true]
  constructor
  · rintro (h | ⟨h, _⟩)
    · exact Or.inl h
    · exact Or.inr h
  · rintro (h | h)
    · exact Or.inl h
    · by_cases hs : r ∈ src
      · exact Or.inl hs
      · refine Or.inr ⟨h, ?_⟩
        simpa [list_contains_iff] using hs

theorem mergeRoles_of_subset {src tgt : List String}
    (h : ∀ r ∈ tgt, r ∈ src) : mergeRoles src tgt = src := by
  rw [mergeRoles_eq_append_filter]
  have hnil : tgt.filter (fun r => !(src.contains r)) = [] := by
    apply List.filter_eq_nil_iff.2
    intro a ha
    simp [list_contains_iff, h a ha]
  rw [hnil, List.append_nil]

theorem mergeRoles_prefix (src tgt : List String) :
    src <+: mergeRoles src tgt := by
  rw [mergeRoles_eq_append_filter]
  exact ⟨_, rfl⟩

theorem mergeRoles_mergeRoles_self (src tgt : List String) :
    mergeRoles (mergeRoles src tgt) tgt = mergeRoles src tgt :=
  mergeRoles_of_subset (fun r hr => (mem_mergeRoles src tgt r).2 (Or.inr hr))

end MergeLemmas

section UpdateFirstLemmas

theorem updateFirst_congr (p : α → Bool) (f g : α → α) (l : List α)
    (h : ∀ x, p x = true → f x = g x) :
    updateFirst p f l = updateFirst p g l := by
  induction l with
  | nil => rfl
  | cons x xs ih =>
    by_cases hx : p x
    · simp [updateFirst, hx, h x hx]
    · simp [updateFirst, hx, ih]

theorem updateFirst_updateFirst (p : α → Bool) (f g : α → α) (l : List α)
    (hp : ∀ x, p (g x) = p x) :
    updateFirst p f (updateFirst p g l) = updateFirst p (fun x => f (g x)) l := by
  induction l with
  | nil => rfl
  | cons x xs ih =>
    by_cases hx : p x
    · simp [updateFirst, hx, hp]
    · simp [updateFirst, hx, ih]

theorem any_updateFirst (p : α → Bool) (f : α → α) (l : List α)
    (hf : ∀ x, p (f x) = p x) :
    (updateFirst p f l).any p = l.any p := by
  induction l with
  | nil => rfl
  | cons x xs ih =>
    by_cases hx : p x
    · simp [updateFirst, hx, hf]
    · simp [updateFirst, hx, ih]

theorem find?_updateFirst (p : α → Bool) (f : α → α) (l : List α) (old : α)
    (h : l.find? p = some old) (hp : p (f old) = true) :
    (updateFirst p f l).find? p = some (f old) := by
  induction l with
  | nil => simp at h
  | cons x xs ih =>
    by_cases hx : p x
    · rw [List.find?_cons_of_pos _ hx] at h
      cases h
      simp [updateFirst, hx, List.find?_cons_of_pos _ hp]
    · rw [List.find?_cons_of_neg _ hx] at h
      simp [updateFirst, hx, List.find?_cons_of_neg _ hx, ih h]

theorem any_of_find?_eq_some (p : α → Bool) (l : List α) (x : α)
    (h : l.find? p = some x) : l.any p = true := by
  refine List.any_eq_true.2 ⟨x, List.mem_of_find?_eq_some h, List.find?_some h⟩

theorem find?_updateFirst_of_eq (p : α → Bool) (f : α → α) (l : List α)
    (old : α) (h : l.find? p = some old) (hp : ∀ x, p (f x) = p x) :
    (updateFirst p f l).find? p = some (f old) :=
  find?_updateFirst p f l old h (by rw [hp]; exact List.find?_some h)

end UpdateFirstLemmas

section GetSetColl

theorem getColl_setColl (s : LUISJsonStructure) (ty : LUISObjNameEnum)
    (l : List Item) : getColl (setColl s ty l) ty = l := by
  cases ty <;> rfl

theorem setColl_setColl (s : LUISJsonStructure) (ty : LUISObjNameEnum)
    (l l' : List Item) : setColl (setColl s ty l) ty l' = setColl s ty l' := by
  cases ty <;> rfl

end GetSetColl

theorem addItemOrRole_pos (s : LUISJsonStructure) (ty : LUISObjNameEnum)
    (value : String) (roles : List String)
    (h : (getColl s ty).any (fun item => item.name == value) = true) :
    addItemOrRoleIfNotPresent s ty value roles
      = setColl s ty (updateFirst (fun item => item.name == value)
          (fun item => { item with roles := mergeRoles item.roles roles })
          (getColl s ty)) := by
  unfold addItemOrRoleIfNotPresent
  simp [h]

/-- First-occurrence de-duplication, embedding the JS Set spread
(an element is kept at its first position and later copies dropped). -/
def dedupFirst (l : List String) : List String :=
  mergeUnique [] l

/-- Modelled from the spec: `entityAndRoles.addRoles` (the `hclasses` module is
not under src/) merges the new roles into the record's role set. -/
def addRoles (dst src : List String) : List String :=
  mergeUnique dst src

/-- The new-role list derived from a declaration's raw roles string:
split on commas, trim, then de-duplicate keeping first occurrences; an absent
or empty roles string yields no roles. -/
def newRolesOf (rolesStr : Option String) : List String :=
  let raw := rolesStr.getD ""
  if raw == "" then []
  else dedupFirst ((splitStr (fun c => c == ',') raw).map trimStr)

/-- Renders the prior definition cited in uniqueness diagnostics. -/
def priorDefStr (item : FlatItem) : String :=
  "@ " ++ kindStr item.type ++ " " ++ item.name ++
    (if item.roles.length > 0 then
      " hasRoles " ++ String.intercalate "," item.roles
    else "")

/-- The duplicate-definition diagnostic of `validateAndGetRoles`, choosing the
name-collision or role-collision wording the way the source's `find` callback
sets `matchType`. -/
def dupEntityMsg (entityName : String) (entityType : EntityKind)
    (item : FlatItem) : String :=
  (if item.name == entityName && !(item.type == entityType) then
    "Entity names must be unique. Duplicate definition found for \""
      ++ entityName ++ "\"."
  else
    "Entity name cannot be the same as a role name. Duplicate definition found for \""
      ++ entityName ++ "\".")
    ++ " Prior definition - '" ++ priorDefStr item ++ "'"

/-- The duplicate-role diagnostic of `validateAndGetRoles`. -/
def dupRoleMsg (entityName : String) (item : FlatItem) : String :=
  "Roles must be unique across entity types. Invalid role definition found \""
    ++ entityName ++ "\". Prior definition - '" ++ priorDefStr item ++ "'"

/-- `validateAndGetRoles(parsedContent, roles, line, entityName, entityType)`:
split and de-duplicate the declaration's roles, enforce global name/role
disjointness against the flat entity/role index, and on success record the
declaration in the index (merging roles into an existing same-name same-type
entry, or appending a new entry). -/
def validateAndGetRoles (s : LUISJsonStructure) (rolesStr : Option String)
    (entityName : String) (entityType : EntityKind) :
    Except ParseErr (List String × LUISJsonStructure) :=
  let newRoles := newRolesOf rolesStr
  match s.flatListOfEntityAndRoles with
  | some fl =>
    match fl.find? (fun item =>
        (item.name == entityName && !(item.type == entityType))
          || item.roles.contains entityName) with
    | some entityFound =>
        .error (.ex .INVALID_INPUT (dupEntityMsg entityName entityType entityFound))
    | none =>
      match newRoles.find? (fun role =>
          fl.any (fun item => item.roles.contains role || item.name == role)) with
      | some role =>
        match fl.find? (fun item =>
            item.roles.contains role || item.name == role) with
        | some roleFound =>
            .error (.ex .INVALID_INPUT (dupRoleMsg entityName roleFound))
        | none => .error (.ex .INVALID_INPUT (dupRoleMsg entityName ⟨"", .simple, []⟩))
      | none =>
        match fl.find? (fun item =>
            item.name == entityName && item.type == entityType) with
        | some _ =>
            let fl' := updateFirst
              (fun item => item.name == entityName && item.type == entityType)
              (fun item => { item with roles := addRoles item.roles newRoles })
              fl
            .ok (newRoles, { s with flatListOfEntityAndRoles := some fl' })
        | none =>
            let fl' := fl ++ [{ name := entityName, type := entityType,
                                roles := newRoles : FlatItem }]
            .ok (newRoles, { s with flatListOfEntityAndRoles := some fl' })
  | none =>
      let fl' := [{ name := entityName, type := entityType,
                    roles := newRoles : FlatItem }]
      .ok (newRoles, { s with flatListOfEntityAndRoles := some fl' })

section MergeUniqueLemmas

theorem prefix_mergeUnique (dst src : List String) :
    dst <+: mergeUnique dst src := by
  induction src generalizing dst with
  | nil => exact List.prefix_refl dst
  | cons x xs ih =>
    refine List.IsPrefix.trans ?_ (ih (pushUnique dst x))
    unfold pushUnique
    by_cases h : dst.contains x
    · rw [if_pos h]
    · rw [if_neg h]
      exact ⟨[x], rfl⟩

theorem mem_pushUnique (dst : List String) (x r : String) :
    r ∈ pushUnique dst x ↔ r ∈ dst ∨ r = x := by
  unfold pushUnique
  by_cases h : dst.contains x
  · have hx : x ∈ dst := (list_contains_iff dst x).1 h
    rw [if_pos h]
    constructor
    · exact Or.inl
    · rintro (hr | rfl)
      · exact hr
      · exact hx
  · rw [if_neg h]
    simp [eq_comm]

theorem mem_mergeUnique (dst src : List String) (r : String) :
    r ∈ mergeUnique dst src ↔ r ∈ dst ∨ r ∈ src := by
  induction src generalizing dst with
  | nil => simp [mergeUnique]
  | cons x xs ih =>
    show r ∈ mergeUnique (pushUnique dst x) xs ↔ _
    rw [ih (pushUnique dst x)]
    rw [mem_pushUnique]
    constructor
    · rintro ((h | rfl) | h)
      · exact Or.inl h
      · exact Or.inr (List.mem_cons_self _ _)
      · exact Or.inr (List.mem_cons_of_mem _ h)
    · rintro (h | h)
      · exact Or.inl (Or.inl h)
      · rcases List.mem_cons.1 h with rfl | h
        · exact Or.inl (Or.inr rfl)
        · exact Or.inr h

theorem mem_updateFirst_of_mem (p : α → Bool) (f : α → α) (l : List α)
    (i : α) (hi : i ∈ l) :
    ∃ i' ∈ updateFirst p f l, i' = i ∨ i' = f i := by
  induction l with
  | nil => simp at hi
  | cons x xs ih =>
    by_cases hx : p x
    · rcases List.mem_cons.1 hi with rfl | hmem
      · exact ⟨f i, by simp [updateFirst, hx], Or.inr rfl⟩
      · exact ⟨i, by simp [updateFirst, hx, hmem], Or.inl rfl⟩
    · rcases List.mem_cons.1 hi with rfl | hmem
      · exact ⟨i, by simp [updateFirst, hx], Or.inl rfl⟩
      · rcases ih hmem with ⟨i', hi', hcase⟩
        exact ⟨i', by simp [updateFirst, hx, hi'], hcase⟩

end MergeUniqueLemmas

/-- C1.  Role validation enforces global name/role disjointness: a declaration
whose name collides with a same-named different-typed index entry or with any
existing role raises a fatal `InvalidInput` exception, a declaration carrying a
role that collides with any existing entity name or role raises a fatal
`InvalidInput` exception, and the flat entity/role index is extended (existing
entries kept with their roles, the declared (name,type) present) only when
validation succeeds. -/
theorem validateAndGetRoles_disjointness
    (s : LUISJsonStructure) (fl : List FlatItem) (rolesStr : Option String)
    (n : String) (t : EntityKind)
    (hfl : s.flatListOfEntityAndRoles = some fl) :
    ((∃ i ∈ fl, (i.name = n ∧ i.type ≠ t) ∨ n ∈ i.roles) →
      ∃ msg, validateAndGetRoles s rolesStr n t
        = .error (.ex .INVALID_INPUT msg)) ∧
    ((∀ i ∈ fl, ¬ ((i.name = n ∧ i.type ≠ t) ∨ n ∈ i.roles)) →
     (∃ r ∈ newRolesOf rolesStr, ∃ i ∈ fl, r ∈ i.roles ∨ i.name = r) →
      ∃ msg, validateAndGetRoles s rolesStr n t
        = .error (.ex .INVALID_INPUT msg)) ∧
    (∀ roles' s', validateAndGetRoles s rolesStr n t = .ok (roles', s') →
      ∃ fl', s'.flatListOfEntityAndRoles = some fl' ∧
        (∀ i ∈ fl, ∃ i' ∈ fl', i'.name = i.name ∧ i'.type = i.type ∧
          ∀ r ∈ i.roles, r ∈ i'.roles) ∧
        (∃ i' ∈ fl', i'.name = n ∧ i'.type = t)) := by
  have hp1 : ∀ i : FlatItem,
      (((i.name == n && !(i.type == t)) || i.roles.contains n) = true)
        ↔ ((i.name = n ∧ i.type ≠ t) ∨ n ∈ i.roles) := by
    intro i
    simp [list_contains_iff]
  refine ⟨?_, ?_, ?_⟩
  · rintro ⟨i, hi, hprop⟩
    have hsome : (fl.find? (fun item =>
        (item.name == n && !(item.type == t)) || item.roles.contains n)).isSome := by
      rw [List.find?_isSome]
      exact ⟨i, hi, (hp1 i).2 hprop⟩
    obtain ⟨x, hx⟩ := Option.isSome_iff_exists.1 hsome
    refine ⟨dupEntityMsg n t x, ?_⟩
    unfold validateAndGetRoles
    rw [hfl]
    simp only [hx]
  · intro hnone hrole
    have hfind1 : fl.find? (fun item =>
        (item.name == n && !(item.type == t)) || item.roles.contains n) = none := by
      rw [List.find?_eq_none]
      intro x hxmem hx
      exact hnone x hxmem ((hp1 x).1 hx)
    have hp2 : ∀ r : String,
        (fl.any (fun item => item.roles.contains r || item.name == r) = true)
          ↔ ∃ i ∈ fl, r ∈ i.roles ∨ i.name = r := by
      intro r
      rw [List.any_eq_true]
      constructor
      · rintro ⟨i, hi, hb⟩
        refine ⟨i, hi, ?_⟩
        revert hb
        simp [list_contains_iff]
      · rintro ⟨i, hi, hb⟩
        refine ⟨i, hi, ?_⟩
        simp only [Bool.or_eq_true, list_contains_iff, beq_iff_eq]
        exact hb
    obtain ⟨r0, hr0mem, hr0⟩ := hrole
    have hsome2 : ((newRolesOf rolesStr).find? (fun role =>
        fl.any (fun item => item.roles.contains role || item.name == role))).isSome := by
      rw [List.find?_isSome]
      exact ⟨r0, hr0mem, (hp2 r0).2 hr0⟩
    obtain ⟨r1, hr1⟩ := Option.isSome_iff_exists.1 hsome2
    have hr1any := List.find?_some hr1
    obtain ⟨i1, hi1mem, hi1⟩ := (hp2 r1).1 hr1any
    have hsome3 : (fl.find? (fun item =>
        item.roles.contains r1 || item.name == r1)).isSome := by
      rw [List.find?_isSome]
      refine ⟨i1, hi1mem, ?_⟩
      simp only [Bool.or_eq_true, list_contains_iff, beq_iff_eq]
      exact hi1
    obtain ⟨y, hy⟩ := Option.isSome_iff_exists.1 hsome3
    refine ⟨dupRoleMsg n y, ?_⟩
    unfold validateAndGetRoles
    rw [hfl]
    simp only [hfind1, hr1, hy]
  · intro roles' s' hok
    unfold validateAndGetRoles at hok
    rw [hfl] at hok
    simp only [] at hok
    split at hok
    · cases hok
    · split at hok
      · split at hok
        · cases hok
        · cases hok
      · split at hok
        next w hq =>
          cases hok
          refine ⟨_, rfl, ?_, ?_⟩
          · intro i hi
            obtain ⟨i', hi'mem, hcase⟩ := mem_updateFirst_of_mem
              (fun item => item.name == n && item.type == t)
              (fun item => { item with roles := addRoles item.roles (newRolesOf rolesStr) })
              fl i hi
            rcases hcase with rfl | rfl
            · exact ⟨i', hi'mem, rfl, rfl, fun r hr => hr⟩
            · refine ⟨_, hi'mem, rfl, rfl, fun r hr => ?_⟩
              show r ∈ addRoles i.roles (newRolesOf rolesStr)
              exact (mem_mergeUnique _ _ r).2 (Or.inl hr)
          · have hw : w.name = n ∧ w.type = t := by
              simpa using List.find?_some hq
            have hup := find?_updateFirst
              (fun item => item.name == n && item.type == t)
              (fun item => { item with roles := addRoles item.roles (newRolesOf rolesStr) })
              fl w hq (by
                have hx := List.find?_some hq
                exact hx)
            exact ⟨_, List.mem_of_find?_eq_some hup, hw.1, hw.2⟩
        next hq =>
          cases hok
          refine ⟨_, rfl, ?_, ?_⟩
          · intro i hi
            exact ⟨i, List.mem_append_left _ hi, rfl, rfl, fun r hr => hr⟩
          · refine ⟨{ name := n, type := t, roles := newRolesOf rolesStr }, ?_, rfl, rfl⟩
            exact List.mem_append_right _ (List.mem_singleton.2 rfl)

/-- C1 witness: with entity `A` in the flat index, declaring entity `B` with
role `A` fails role validation with `InvalidInput`. -/
theorem validateAndGetRoles_disjointness_witness :
    ∃ msg, validateAndGetRoles
        { emptyApp with flatListOfEntityAndRoles := some [⟨"A", .simple, []⟩] }
        (some "A") "B" .simple
      = .error (.ex .INVALID_INPUT msg) := by
  have h := validateAndGetRoles_disjointness
    { emptyApp with flatListOfEntityAndRoles := some [⟨"A", .simple, []⟩] }
    [⟨"A", .simple, []⟩] (some "A") "B" .simple rfl
  refine h.2.1 (by decide) ?_
  exact ⟨"A", by decide, ⟨⟨"A", .simple, []⟩, by decide, by decide⟩⟩

instance {ε : Type u} {α : Type v} [DecidableEq ε] [DecidableEq α] :
    DecidableEq (Except ε α)
  | .error a, .error b =>
      if h : a = b then .isTrue (by rw [h])
      else .isFalse (fun hc => h (by cases hc; rfl))
  | .error _, .ok _ => .isFalse (fun hc => Except.noConfusion hc)
  | .ok _, .error _ => .isFalse (fun hc => Except.noConfusion hc)
  | .ok a, .ok b =>
      if h : a = b then .isTrue (by rw [h])
      else .isFalse (fun hc => h (by cases hc; rfl))

/-- The error code of a failed computation, when the failure is a thrown
`exception` object (and not a JS runtime error). -/
def errCodeOf : Except ParseErr α → Option ErrCode
  | .error (.ex c _) => some c
  | _ => none

/-- Find the first element satisfying `p` together with its index, embedding
the source's `find` callbacks that record the index in a side variable. -/
def findWithIdx (p : α → Bool) : List α → Option (α × Nat)
  | [] => none
  | x :: xs =>
      if p x then some (x, 0)
      else (findWithIdx p xs).map (fun r => (r.1, r.2 + 1))

/-- `RemoveDuplicatePatternAnyEntity(parsedContent, pEntityName, entityType,
entityLine)`: if the name is held in the pattern-any collection, fail when the
new type is a phrase list, otherwise remove the record and hand back its
accumulated roles. -/
def RemoveDuplicatePatternAnyEntity (s : LUISJsonStructure)
    (pEntityName : String) (entityType : EntityKind) :
    Except ParseErr (List String × LUISJsonStructure) :=
  match findWithIdx (fun item => item.name == pEntityName)
      s.patternAnyEntities with
  | none => .ok ([], s)
  | some (paEntityFound, paIdx) =>
      if containsSubstr (trimStr (toLowerStr (kindStr entityType)))
          "phraselist" then
        .error (.ex .INVALID_INPUT
          ("Phrase lists cannot be used as an entity in a pattern \""
            ++ pEntityName ++ "\""))
      else
        .ok (paEntityFound.roles,
          { s with patternAnyEntities := s.patternAnyEntities.eraseIdx paIdx })

/-- The pattern-any promotion step of `parseAndHandleEntityV2`: pop any
pattern-any record of the declared name and fold its roles into the
declaration's role list before dispatching to the kind handler. -/
def promoteStep (s : LUISJsonStructure) (entityName : String)
    (entityType : EntityKind) (entityRoles : List String) :
    Except ParseErr (List String × LUISJsonStructure) :=
  match RemoveDuplicatePatternAnyEntity s entityName entityType with
  | .error e => .error e
  | .ok (paEntityRoles, s') => .ok (mergeUnique entityRoles paEntityRoles, s')

section FindWithIdxLemmas

theorem findWithIdx_isSome (p : α → Bool) (l : List α)
    (h : ∃ x ∈ l, p x = true) : ∃ x i, findWithIdx p l = some (x, i) := by
  induction l with
  | nil => simp at h
  | cons y ys ih =>
    by_cases hp : p y
    · exact ⟨y, 0, by simp [findWithIdx, hp]⟩
    · obtain ⟨x, hx, hpx⟩ := h
      rcases List.mem_cons.1 hx with rfl | hmem
      · exact absurd hpx hp
      · obtain ⟨x', i', hf⟩ := ih ⟨x, hmem, hpx⟩
        exact ⟨x', i' + 1, by simp [findWithIdx, hp, hf]⟩

theorem findWithIdx_spec (p : α → Bool) (l : List α) (x : α) (i : Nat)
    (h : findWithIdx p l = some (x, i)) : x ∈ l ∧ p x = true := by
  induction l generalizing i with
  | nil => simp [findWithIdx] at h
  | cons y ys ih =>
    by_cases hp : p y
    · simp only [findWithIdx, hp, if_pos] at h
      injection h with h1
      injection h1 with hxy hio
      subst hxy
      exact ⟨List.mem_cons_self _ _, hp⟩
    · simp only [findWithIdx, hp, if_neg] at h
      cases hys : findWithIdx p ys with
      | none => rw [hys] at h; simp at h
      | some r =>
        rw [hys] at h
        cases r with
        | mk ry ri =>
          simp only [Option.map] at h
          injection h with h1
          injection h1 with hxy hio
          subst hxy
          obtain ⟨hmem, hpx⟩ := ih _ hys
          exact ⟨List.mem_cons_of_mem _ hmem, hpx⟩

theorem eraseIdx_findWithIdx_name (f : α → String) (n : String) (l : List α)
    (x : α) (i : Nat)
    (h : findWithIdx (fun a => f a == n) l = some (x, i))
    (hnd : (l.map f).Nodup) :
    ∀ q ∈ l.eraseIdx i, ¬ (f q = n) := by
  induction l generalizing i with
  | nil => simp [findWithIdx] at h
  | cons y ys ih =>
    rw [List.map_cons, List.nodup_cons] at hnd
    by_cases hp : (f y == n)
    · simp only [findWithIdx, hp, if_pos] at h
      injection h with h1
      injection h1 with hxy hio
      subst hio
      intro q hq hqn
      rw [List.eraseIdx_cons_zero] at hq
      have hyn : f y = n := by simpa using hp
      refine hnd.1 ?_
      rw [hyn, ← hqn]
      exact List.mem_map_of_mem f hq
    · simp only [findWithIdx, hp, if_neg] at h
      cases hys : findWithIdx (fun a => f a == n) ys with
      | none => rw [hys] at h; simp at h
      | some r =>
        rw [hys] at h
        cases r with
        | mk ry ri =>
          simp only [Option.map] at h
          injection h with h1
          injection h1 with hxy hio
          subst hxy
          subst hio
          intro q hq hqn
          rw [List.eraseIdx_cons_succ] at hq
          rcases List.mem_cons.1 hq with rfl | hmem
          · exact hp (by simpa using hqn)
          · exact ih _ hys hnd.2 q hmem hqn

end FindWithIdxLemmas

/-- C3 counterexample: with `foo` held as a pattern-any record, declaring `foo`
as a phrase list does not remove-and-merge; the promotion step raises
`InvalidInput`, so the claim fails for the phrase-list kind. -/
theorem promoteStep_phraseList_counterexample :
    errCodeOf (promoteStep
        { emptyApp with patternAnyEntities := [{ name := "foo", roles := ["r"] }] }
        "foo" .phraseList ["r0"])
      = some .INVALID_INPUT ∧
    (promoteStep
        { emptyApp with patternAnyEntities := [{ name := "foo", roles := ["r"] }] }
        "foo" .phraseList ["r0"]).isOk = false := by
  constructor
  · rfl
  · rfl

/-- C3 amended.  For every name currently held as a pattern-any record, a later
declaration of that name as any concrete kind other than phrase list removes
the pattern-any record first and merges its accumulated roles into the
declaration's role set (no accumulated role lost); a phrase-list declaration of
such a name instead raises a fatal `InvalidInput` exception. -/
theorem promoteStep_promotion (s : LUISJsonStructure) (n : String)
    (k : EntityKind) (rs : List String) (pa : Item)
    (hmem : pa ∈ s.patternAnyEntities) (hname : pa.name = n)
    (hnd : (s.patternAnyEntities.map (fun item => item.name)).Nodup) :
    (k ≠ .phraseList →
      ∃ s', promoteStep s n k rs = .ok (mergeUnique rs pa.roles, s') ∧
        (∀ q ∈ s'.patternAnyEntities, ¬ (q.name = n)) ∧
        (∀ r ∈ pa.roles, r ∈ mergeUnique rs pa.roles) ∧
        (∀ r ∈ rs, r ∈ mergeUnique rs pa.roles)) ∧
    (k = .phraseList →
      ∃ msg, promoteStep s n k rs = .error (.ex .INVALID_INPUT msg)) := by
  obtain ⟨x, i, hfind⟩ := findWithIdx_isSome (fun item => item.name == n)
    s.patternAnyEntities ⟨pa, hmem, by simp [hname]⟩
  obtain ⟨hxmem, hxname⟩ := findWithIdx_spec _ _ _ _ hfind
  have hxpa : x = pa := by
    have hinj := List.inj_on_of_nodup_map hnd
    exact hinj hxmem hmem (by rw [show x.name = n from by simpa using hxname, hname])
  constructor
  · intro hk
    have hchk : containsSubstr (trimStr (toLowerStr (kindStr k)))
        "phraselist" = false := by
      cases k <;> first | rfl | exact absurd rfl hk
    refine ⟨{ s with patternAnyEntities := s.patternAnyEntities.eraseIdx i },
      ?_, ?_, ?_, ?_⟩
    · unfold promoteStep RemoveDuplicatePatternAnyEntity
      rw [hfind]
      simp only [hchk, Bool.false_eq_true, if_neg, hxpa]
      rfl
    · intro q hq
      exact eraseIdx_findWithIdx_name (fun item => item.name) n
        s.patternAnyEntities x i hfind hnd q hq
    · intro r hr
      exact (mem_mergeUnique rs pa.roles r).2 (Or.inr hr)
    · intro r hr
      exact (mem_mergeUnique rs pa.roles r).2 (Or.inl hr)
  · rintro rfl
    refine ⟨"Phrase lists cannot be used as an entity in a pattern \""
      ++ n ++ "\"", ?_⟩
    unfold promoteStep RemoveDuplicatePatternAnyEntity
    rw [hfind]
    rfl

/-- C3 witness: a concrete simple-kind promotion of a pattern-any record. -/
theorem promoteStep_promotion_witness :
    ∃ s', promoteStep
        { emptyApp with patternAnyEntities := [{ name := "foo", roles := ["r"] }] }
        "foo" .simple ["r0"]
      = .ok (mergeUnique ["r0"] ["r"], s') ∧
      (∀ q ∈ s'.patternAnyEntities, ¬ (q.name = "foo")) ∧
      (∀ r ∈ (["r"] : List String), r ∈ mergeUnique ["r0"] ["r"]) ∧
      (∀ r ∈ (["r0"] : List String), r ∈ mergeUnique ["r0"] ["r"]) := by
  have h := promoteStep_promotion
    { emptyApp with patternAnyEntities := [{ name := "foo", roles := ["r"] }] }
    "foo" .simple ["r0"] { name := "foo", roles := ["r"] }
    (List.mem_singleton.2 rfl) rfl (by decide)
  exact h.1 (by decide)

/-- C4.  For every collection and every (name, roles) declaration of an
existing same-kind entity, the upsert `addItemOrRoleIfNotPresent` is idempotent
on roles, merges roles as a set union, and appends new roles after the existing
ones preserving their first-seen order. -/
theorem upsert_idempotent_union_ordered (s : LUISJsonStructure)
    (ty : LUISObjNameEnum) (value : String) (roles : List String) (old : Item)
    (hfind : (getColl s ty).find? (fun item => item.name == value) = some old) :
    addItemOrRoleIfNotPresent (addItemOrRoleIfNotPresent s ty value roles)
        ty value roles
      = addItemOrRoleIfNotPresent s ty value roles ∧
    ∃ merged : Item,
      (getColl (addItemOrRoleIfNotPresent s ty value roles) ty).find?
          (fun item => item.name == value) = some merged ∧
      merged.roles
        = old.roles ++ roles.filter (fun r => !(old.roles.contains r)) ∧
      (∀ r, r ∈ merged.roles ↔ r ∈ old.roles ∨ r ∈ roles) ∧
      old.roles <+: merged.roles := by
  set f := fun item : Item => { item with roles := mergeRoles item.roles roles }
    with hf
  have hpf : ∀ x : Item, ((f x).name == value) = (x.name == value) :=
    fun x => rfl
  have hany : (getColl s ty).any (fun item => item.name == value) = true :=
    any_of_find?_eq_some _ _ _ hfind
  have hold := List.find?_some hfind
  have hstep : addItemOrRoleIfNotPresent s ty value roles
      = setColl s ty (updateFirst (fun item => item.name == value) f
          (getColl s ty)) :=
    addItemOrRole_pos s ty value roles hany
  have hcoll' : getColl (addItemOrRoleIfNotPresent s ty value roles) ty
      = updateFirst (fun item => item.name == value) f (getColl s ty) := by
    rw [hstep, getColl_setColl]
  have hany' : (getColl (addItemOrRoleIfNotPresent s ty value roles) ty).any
      (fun item => item.name == value) = true := by
    rw [hcoll', any_updateFirst _ _ _ hpf]
    exact hany
  constructor
  · rw [addItemOrRole_pos _ ty value roles hany', hcoll']
    conv_lhs => rw [hstep]
    rw [setColl_setColl, updateFirst_updateFirst _ _ _ _ hpf, hstep]
    congr 1
    apply updateFirst_congr
    intro x _
    show { x with roles := mergeRoles (mergeRoles x.roles roles) roles }
        = { x with roles := mergeRoles x.roles roles }
    rw [mergeRoles_mergeRoles_self]
  · refine ⟨f old, ?_, ?_, ?_, ?_⟩
    · rw [hcoll']
      exact find?_updateFirst _ _ _ _ hfind (by rw [hpf]; exact hold)
    · exact mergeRoles_eq_append_filter old.roles roles
    · exact fun r => mem_mergeRoles old.roles roles r
    · exact mergeRoles_prefix old.roles roles

/-- C4 witness: a concrete same-kind redeclaration exercising the theorem. -/
theorem upsert_idempotent_union_ordered_witness :
    (addItemOrRoleIfNotPresent (addItemOrRoleIfNotPresent
        { emptyApp with entities := [{ name := "a", roles := ["r1"] }] }
        .ENTITIES "a" ["r2", "r1"]) .ENTITIES "a" ["r2", "r1"])
      = addItemOrRoleIfNotPresent
        { emptyApp with entities := [{ name := "a", roles := ["r1"] }] }
        .ENTITIES "a" ["r2", "r1"] ∧
    ∃ merged : Item,
      (getColl (addItemOrRoleIfNotPresent
          { emptyApp with entities := [{ name := "a", roles := ["r1"] }] }
          .ENTITIES "a" ["r2", "r1"]) .ENTITIES).find?
          (fun item => item.name == "a") = some merged ∧
      merged.roles = ["r1"] ++ ["r2", "r1"].filter
          (fun r => !(["r1"].contains r)) ∧
      (∀ r, r ∈ merged.roles ↔ r ∈ ["r1"] ∨ r ∈ ["r2", "r1"]) ∧
      ["r1"] <+: merged.roles := by
  have h := upsert_idempotent_union_ordered
    { emptyApp with entities := [{ name := "a", roles := ["r1"] }] }
    .ENTITIES "a" ["r2", "r1"] { name := "a", roles := ["r1"] } (by rfl)
  exact h

/-- The `cannotLabelEntity`-style diagnostic of
`VerifyAndUpdateSimpleEntityCollection`. -/
def cannotLabelMsg (entityType entityName uttText : String) : String :=
  "'" ++ entityType ++ "' entity: \"" ++ entityName
    ++ "\" is added as a labelled entity in utterance \"" ++ uttText ++ "\". "
    ++ entityType ++ " cannot be added with explicit labelled values in utterances."

/-- `VerifyAndUpdateSimpleEntityCollection(parsedContent, entityName,
entityType)`: absorb and delete a same-named simple entity (kept for phrase
lists), and scan utterance labels of that name — labels carrying a role donate
the role, a role-less label is fatal `InvalidInput` unless the new kind is a
phrase list.  The source's index-splice removal loop is embedded as a filter,
which agrees with it whenever the collection holds at most one record per name. -/
def VerifyAndUpdateSimpleEntityCollection (s : LUISJsonStructure)
    (entityName : String) (entityType : String) :
    Except ParseErr (List String × LUISJsonStructure) :=
  let simpleEntityExists := s.entities.find? (fun item => item.name == entityName)
  let entityRoles :=
    match simpleEntityExists with
    | some simpleEntity => mergeUnique [] simpleEntity.roles
    | none => []
  let s1 :=
    match simpleEntityExists with
    | some _ =>
        if entityType == "Phrase List" then s
        else { s with entities :=
          s.entities.filter (fun item => !(item.name == entityName)) }
    | none => s
  match s.utterances.find? (fun item =>
      (item.entities.find? (fun e => e.entity == entityName)).isSome) with
  | none => .ok (entityRoles, s1)
  | some utt =>
      let entityMatch := utt.entities.filter (fun e => e.entity == entityName)
      match entityMatch.foldlM (fun (acc : List String) e =>
        if e.role != "" then Except.ok (pushUnique acc e.role)
        else if entityType != "Phrase List" then
          Except.error (ParseErr.ex .INVALID_INPUT
            (cannotLabelMsg entityType entityName utt.text))
        else Except.ok acc) entityRoles with
      | .error e => .error e
      | .ok roles => .ok (roles, s1)

/-- `handlePatternAny(parsedContent, entityName, entityRoles)`.  When a
same-named pattern-any record already exists, the source's merge loop guards
each push with `!PAExists.roles.includes` — the truthiness of the `includes`
function itself rather than of `includes(item)` — which is always false, so the
loop never pushes a role and the registry is returned unchanged. -/
def handlePatternAny (s : LUISJsonStructure) (entityName : String)
    (entityRoles : List String) : Except ParseErr LUISJsonStructure :=
  match VerifyAndUpdateSimpleEntityCollection s entityName "Pattern.Any" with
  | .error e => .error e
  | .ok (rolesImport, s1) =>
      let entityRoles1 := mergeUnique entityRoles rolesImport
      match s1.patternAnyEntities.find? (fun item => item.name == entityName) with
      | none => .ok { s1 with patternAnyEntities :=
          s1.patternAnyEntities
            ++ [{ name := entityName, explicitList := [], roles := entityRoles1 }] }
      | some _ => .ok s1

/-- C7.  With `foo` already held as a pattern-any record, re-declaring it as
pattern-any with role `r1` returns the registry unchanged: the declaration's
roles are dropped, not unioned into the record, because the source's merge
guard tests the `includes` function itself.  The claim describes the evident
intent; the code never merges. -/
theorem handlePatternAny_drops_roles :
    handlePatternAny
        { emptyApp with patternAnyEntities := [{ name := "foo" }] }
        "foo" ["r1"]
      = .ok { emptyApp with patternAnyEntities := [{ name := "foo" }] } ∧
    ([{ name := "foo" : Item }].all
        (fun item => !(item.roles.contains "r1"))) = true := by
  constructor
  · decide
  · decide

/-- Embeds `lEntityType.split(/\(.*\)/g)[0]`: the characters before the first
parenthesis group when the greedy `\(.*\)` pattern matches anywhere, the whole
string otherwise. -/
def plBaseAux : List Char → Option (List Char)
  | [] => none
  | c :: rest =>
      if c == '(' && rest.contains ')' then some []
      else (plBaseAux rest).map (fun pre => c :: pre)

/-- String wrapper for `plBaseAux`. -/
def phraseListBaseName (s : String) : String :=
  match plBaseAux s.data with
  | some pre => String.mk pre
  | none => s

/-- `handlePhraseList(parsedContent, entityName, entityType, entityRoles,
valuesList, currentLine)`.  In the conflicting-interchangeable branch the
source builds its diagnostic from `entity.ParseTree.entityLine()`, but no
`entity` identifier is in scope inside `handlePhraseList`, so evaluating that
argument raises `ReferenceError: entity is not defined` before any `exception`
object is constructed; that branch is embedded as the runtime error. -/
def handlePhraseList (s : LUISJsonStructure) (entityName : String)
    (entityType : Option String) (entityRoles : List String)
    (valuesList : List String) : Except ParseErr LUISJsonStructure :=
  if entityRoles.length != 0 then
    .error (.ex .INVALID_INPUT
      ("Phrase list entity " ++ entityName
        ++ " has invalid role definition with roles = "
        ++ String.intercalate ", " entityRoles
        ++ ". Roles are not supported for Phrase Lists"))
  else
    match VerifyAndUpdateSimpleEntityCollection s entityName "Phrase List" with
    | .error e => .error e
    | .ok (rolesImport, s1) =>
      let _entityRoles1 := mergeUnique entityRoles rolesImport
      let lEntityType := entityType.getD entityName
      let intc := containsSubstr (toLowerStr lEntityType) "interchangeable"
      let entityName1 :=
        if intc && entityType.isNone then phraseListBaseName lEntityType
        else entityName
      let pLValues := valuesList.foldl (fun acc line =>
        acc ++ (splitStr (fun c => c == ',' || c == ';') line).map trimStr) []
      match s1.model_features.find? (fun item => item.name == entityName1) with
      | some pl =>
          if pl.mode == intc then
            let newWords := pLValues.foldl (fun w v =>
              if containsSubstr w v then w
              else w ++ (if w != "" then "," else "") ++ v) pl.words
            let mf := updateFirst (fun item => item.name == entityName1)
              (fun item => { item with words := newWords }) s1.model_features
            .ok { s1 with model_features := mf }
          else
            .error (.jsRefError "entity")
      | none =>
          let mf := s1.model_features
            ++ [{ name := entityName1, mode := intc,
                  words := String.intercalate "," pLValues,
                  activated := true : Item }]
          .ok { s1 with model_features := mf }

/-- C8.  Redeclaring phrase list `PL1` with a conflicting interchangeable flag
raises a JS `ReferenceError` (undefined identifier `entity`), not an
`InvalidInput` exception as the claim states; and with a matching flag the
value `on` is dropped because deduplication tests substring containment in the
accumulated comma-joined value string (`one,two`), not exact-string equality. -/
theorem handlePhraseList_conflict_referenceError :
    handlePhraseList
        { emptyApp with model_features :=
            [{ name := "PL1", words := "one", activated := true }] }
        "PL1" (some "phraseList(interchangeable)") [] ["two"]
      = .error (.jsRefError "entity") ∧
    handlePhraseList
        { emptyApp with model_features :=
            [{ name := "PL1", words := "one,two", activated := true }] }
        "PL1" (some "phraseList") [] ["on"]
      = .ok { emptyApp with model_features :=
          [{ name := "PL1", words := "one,two", activated := true }] } := by
  constructor
  · decide
  · decide

/-- JS `entityType.slice(1, entityType.length - 1)`: the characters strictly
between the first and last position (the regex body between its slashes). -/
def sliceInner (s : String) : String :=
  String.mk ((s.data.drop 1).take (s.data.length - 2))

/-- A state in which `VerifyAndUpdateSimpleEntityCollection` is a no-op:
no same-named simple entity and no utterance label of the name. -/
theorem VerifyAndUpdate_clean (s : LUISJsonStructure) (n t : String)
    (hsimple : s.entities.find? (fun item => item.name == n) = none)
    (hutt : s.utterances.find? (fun item =>
      (item.entities.find? (fun e => e.entity == n)).isSome) = none) :
    VerifyAndUpdateSimpleEntityCollection s n t = .ok ([], s) := by
  unfold VerifyAndUpdateSimpleEntityCollection
  rw [hsimple, hutt]

/-- `handleRegExEntity(parsedContent, entityName, entityType, entityRoles,
entityLine)`: reject an empty pattern body, reject a redeclaration whose
non-empty pattern conflicts with the stored non-empty pattern, otherwise merge
roles and let the first non-empty pattern win. -/
def handleRegExEntity (s : LUISJsonStructure) (entityName : String)
    (entityType : Option String) (entityRoles : List String) :
    Except ParseErr LUISJsonStructure :=
  match VerifyAndUpdateSimpleEntityCollection s entityName "RegEx" with
  | .error e => .error e
  | .ok (rolesImport, s1) =>
    let entityRoles1 := mergeUnique entityRoles rolesImport
    let regexResult : Except ParseErr String :=
      if entityType.getD "" != "" then
        let regex := sliceInner (entityType.getD "")
        if regex == "" then
          .error (.ex .INVALID_REGEX_ENTITY
            ("RegEx entity: " ++ entityName ++ " has empty regex pattern defined."))
        else .ok regex
      else .ok ""
    match regexResult with
    | .error e => .error e
    | .ok regex =>
      match s1.regex_entities.find? (fun item => item.name == entityName) with
      | none =>
          let re := s1.regex_entities
            ++ [{ name := entityName, regexPattern := regex,
                  roles := entityRoles1 : Item }]
          .ok { s1 with regex_entities := re }
      | some regExEntity =>
          if regExEntity.regexPattern != "" && regex != ""
              && regExEntity.regexPattern != regex then
            .error (.ex .INVALID_REGEX_ENTITY
              ("RegEx entity: " ++ regExEntity.name
                ++ " has multiple regex patterns defined. \n 1. /" ++ regex
                ++ "/\n 2. /" ++ regExEntity.regexPattern ++ "/"))
          else
            let s2 := addItemOrRoleIfNotPresent s1 .REGEX regExEntity.name
              entityRoles1
            let re2 := updateFirst (fun item => item.name == entityName)
              (fun item =>
                if item.regexPattern == "" then { item with regexPattern := regex }
                else item)
              s2.regex_entities
            .ok { s2 with regex_entities := re2 }

/-- C6.  For a regex declaration carrying a pattern string: an empty body
between the slashes is fatal `InvalidRegexEntity`; a redeclaration whose
non-empty body differs from the stored non-empty pattern is fatal
`InvalidRegexEntity`; otherwise the redeclaration succeeds, the first non-empty
pattern is kept, and roles merge as a set union. -/
theorem handleRegExEntity_spec (s : LUISJsonStructure) (n t : String)
    (rs : List String)
    (hsimple : s.entities.find? (fun item => item.name == n) = none)
    (hutt : s.utterances.find? (fun item =>
      (item.entities.find? (fun e => e.entity == n)).isSome) = none) :
    (t ≠ "" → sliceInner t = "" →
      ∃ msg, handleRegExEntity s n (some t) rs
        = .error (.ex .INVALID_REGEX_ENTITY msg)) ∧
    (∀ re, s.regex_entities.find? (fun item => item.name == n) = some re →
      re.regexPattern ≠ "" → sliceInner t ≠ "" →
      sliceInner t ≠ re.regexPattern →
      ∃ msg, handleRegExEntity s n (some t) rs
        = .error (.ex .INVALID_REGEX_ENTITY msg)) ∧
    (∀ re, s.regex_entities.find? (fun item => item.name == n) = some re →
      t ≠ "" → sliceInner t ≠ "" →
      (re.regexPattern = "" ∨ re.regexPattern = sliceInner t) →
      ∃ s', handleRegExEntity s n (some t) rs = .ok s' ∧
        ∃ re', s'.regex_entities.find? (fun item => item.name == n) = some re' ∧
          re'.regexPattern
            = (if re.regexPattern = "" then sliceInner t else re.regexPattern) ∧
          (∀ r, r ∈ re'.roles ↔ r ∈ re.roles ∨ r ∈ rs)) := by
  have hv := VerifyAndUpdate_clean s n "RegEx" hsimple hutt
  refine ⟨?_, ?_, ?_⟩
  · intro ht hslice
    refine ⟨"RegEx entity: " ++ n ++ " has empty regex pattern defined.", ?_⟩
    unfold handleRegExEntity
    rw [hv]
    simp only [Option.getD_some, bne_iff_ne, ne_eq, ht, not_false_eq_true,
      if_pos, hslice]
    rfl
  · intro re hre hp hs hne
    refine ⟨"RegEx entity: " ++ re.name
      ++ " has multiple regex patterns defined. \n 1. /" ++ sliceInner t
      ++ "/\n 2. /" ++ re.regexPattern ++ "/", ?_⟩
    have ht : t ≠ "" := by
      intro hteq
      exact hs (by rw [hteq]; rfl)
    unfold handleRegExEntity
    rw [hv]
    simp only [Option.getD_some, bne_iff_ne, ne_eq, ht, not_false_eq_true,
      if_pos, hs, hre]
    have hne' : ¬ re.regexPattern = sliceInner t := fun hh => hne hh.symm
    have hcond : (re.regexPattern != "" && sliceInner t != ""
        && re.regexPattern != sliceInner t) = true := by
      simp [hp, hs, hne']
    rw [if_neg (by simp [hs] : ¬ (sliceInner t == "") = true)]
    simp [hcond]
  · intro re hre ht hs hor
    have hcond : ¬ (re.regexPattern != "" && sliceInner t != ""
        && re.regexPattern != sliceInner t) = true := by
      rcases hor with h | h
      · simp [h]
      · simp [h]
    have hany : s.regex_entities.any (fun item => item.name == n) = true :=
      any_of_find?_eq_some _ _ _ hre
    have hrn : re.name = n := by simpa using List.find?_some hre
    have hstep : addItemOrRoleIfNotPresent s .REGEX n (mergeUnique rs [])
        = setColl s .REGEX (updateFirst (fun item => item.name == n)
            (fun item => { item with
              roles := mergeRoles item.roles (mergeUnique rs []) })
            s.regex_entities) :=
      addItemOrRole_pos s .REGEX n (mergeUnique rs []) hany
    have hfind2 : (updateFirst (fun item => item.name == n)
        (fun item => { item with
          roles := mergeRoles item.roles (mergeUnique rs []) })
        s.regex_entities).find? (fun item => item.name == n)
        = some { re with roles := mergeRoles re.roles (mergeUnique rs []) } :=
      find?_updateFirst_of_eq _ _ _ _ hre (fun x => rfl)
    have hgname : ∀ item : Item,
        (((if item.regexPattern == "" then
            { item with regexPattern := sliceInner t }
          else item)).name == n) = (item.name == n) := by
      intro item
      by_cases hx : (item.regexPattern == "") = true
      · rw [if_pos hx]
      · rw [if_neg hx]
    have hfind3 := find?_updateFirst_of_eq (fun item : Item => item.name == n)
      (fun item : Item =>
        if item.regexPattern == "" then { item with regexPattern := sliceInner t }
        else item)
      _ _ hfind2 hgname
    have hmain : handleRegExEntity s n (some t) rs
        = .ok { setColl s .REGEX (updateFirst (fun item => item.name == n)
            (fun item => { item with
              roles := mergeRoles item.roles (mergeUnique rs []) })
            s.regex_entities) with
            regex_entities := updateFirst (fun item => item.name == n)
              (fun item =>
                if item.regexPattern == "" then
                  { item with regexPattern := sliceInner t }
                else item)
              (updateFirst (fun item => item.name == n)
                (fun item => { item with
                  roles := mergeRoles item.roles (mergeUnique rs []) })
                s.regex_entities) } := by
      unfold handleRegExEntity
      rw [hv]
      simp only [Option.getD_some, bne_iff_ne, ne_eq, ht, not_false_eq_true,
        if_pos, hre]
      rw [if_neg (by simp [hs] : ¬ (sliceInner t == "") = true)]
      have hcondf : (re.regexPattern != "" && sliceInner t != ""
          && re.regexPattern != sliceInner t) = false := by
        rw [Bool.eq_false_iff]
        exact hcond
      simp only [hcondf, Bool.false_eq_true, if_false, hrn, hstep]
      rfl
    refine ⟨_, hmain, ?_⟩
    by_cases hrp : re.regexPattern = ""
    · have hrpb : (re.regexPattern == "") = true := by simpa using hrp
      simp only [hrpb, if_pos] at hfind3
      refine ⟨_, hfind3, ?_, ?_⟩
      · show sliceInner t = _
        rw [if_pos hrp]
      · intro r
        show r ∈ mergeRoles re.roles (mergeUnique rs []) ↔ r ∈ re.roles ∨ r ∈ rs
        exact mem_mergeRoles re.roles rs r
    · have hrpb : (re.regexPattern == "") = false := by
        rw [Bool.eq_false_iff]
        simpa using hrp
      simp only [hrpb, Bool.false_eq_true, if_false] at hfind3
      refine ⟨_, hfind3, ?_, ?_⟩
      · show re.regexPattern = _
        rw [if_neg hrp]
      · intro r
        show r ∈ mergeRoles re.roles (mergeUnique rs []) ↔ r ∈ re.roles ∨ r ∈ rs
        exact mem_mergeRoles re.roles rs r

/-- C6 witness: declaring regex entity `r1` with the empty pattern `//` raises
`InvalidRegexEntity`. -/
theorem handleRegExEntity_spec_witness :
    ∃ msg, handleRegExEntity emptyApp "r1" (some "//") ["ro"]
      = .error (.ex .INVALID_REGEX_ENTITY msg) := by
  have h := handleRegExEntity_spec emptyApp "r1" "//" ["ro"] rfl rfl
  exact h.1 (by decide) (by decide)

/-- The child-definition string of a composite declaration:
`entityType.trim().replace('[','').replace(']','').trim()`. -/
def childDefinitionOf (entityType : String) : String :=
  trimStr (String.mk (removeFirstChar ']'
    (removeFirstChar '[' (trimStr entityType).data)))

/-- The child list of a composite declaration: split the child definition on
`,`/`;` and trim, an empty definition yielding no children. -/
def compositeChildrenOf (entityType : String) : List String :=
  let childDefinition := childDefinitionOf entityType
  if childDefinition != "" then
    (splitStr (fun c => c == ',' || c == ';') childDefinition).map trimStr
  else []

/-- JS `Array.prototype.sort` on an array of strings (default lexicographic
comparator), used by the source inside `JSON.stringify` child-set comparison. -/
def sortStr (l : List String) : List String :=
  l.insertionSort (fun a b => a ≤ b)

/-- `handleComposite(parsedContent, entityName, entityType, entityRoles,
currentLine, inlineChildRequired)`: absorb a same-named simple entity, reject a
missing inline child definition, and either add the composite or merge into the
existing one — rejecting a redeclaration whose non-empty child multiset differs
from the stored non-empty one (compared by sorting both lists in place, which
also leaves the stored children sorted before the new ones are appended). -/
def handleComposite (s : LUISJsonStructure) (entityName : String)
    (entityType : String) (entityRoles : List String)
    (inlineChildRequired : Bool) : Except ParseErr LUISJsonStructure :=
  let simpleEntityExists := s.entities.find? (fun item => item.name == entityName)
  let entityRoles1 :=
    match simpleEntityExists with
    | some simpleEntity => mergeUnique entityRoles simpleEntity.roles
    | none => entityRoles
  let s1 :=
    match simpleEntityExists with
    | some _ => { s with entities :=
        s.entities.filter (fun item => !(item.name == entityName)) }
    | none => s
  let childDefinition := childDefinitionOf entityType
  if childDefinition == "" && inlineChildRequired then
    .error (.ex .INVALID_COMPOSITE_ENTITY
      ("Composite entity: " ++ entityName
        ++ " is missing child entity definitions. Child entities are denoted via [entity1, entity2] notation."))
  else
    let compositeChildren := compositeChildrenOf entityType
    match s1.composites.find? (fun item => item.name == entityName) with
    | none =>
        let comps := s1.composites
          ++ [{ name := entityName, children := compositeChildren,
                roles := entityRoles1 : Item }]
        let s2 := { s1 with composites := comps }
        let ents := s2.entities.filter (fun entity => !(entity.name == entityName))
        .ok { s2 with entities := ents }
    | some compositeEntity =>
        if compositeEntity.children.length != 0
            && !(sortStr compositeChildren == sortStr compositeEntity.children) then
          .error (.ex .INVALID_COMPOSITE_ENTITY
            ("Composite entity: " ++ entityName
              ++ " has multiple definition with different children. \n 1. "
              ++ String.intercalate ", " (sortStr compositeChildren)
              ++ "\n 2. " ++ String.intercalate ", " (sortStr compositeEntity.children)))
        else
          let storedChildren :=
            if compositeEntity.children.length != 0 then
              sortStr compositeEntity.children
            else compositeEntity.children
          let newChildren :=
            if compositeEntity.children.length != 0 then sortStr compositeChildren
            else compositeChildren
          let comps := updateFirst (fun item => item.name == entityName)
            (fun item => { item with children := storedChildren ++ newChildren })
            s1.composites
          let s2 := { s1 with composites := comps }
          .ok (addItemOrRoleIfNotPresent s2 .COMPOSITES compositeEntity.name
            entityRoles1)

section SortLemmas

theorem sortStr_eq_of_perm {a b : List String} (h : a.Perm b) :
    sortStr a = sortStr b := by
  refine List.eq_of_perm_of_sorted ?_ (List.sorted_insertionSort _ a)
    (List.sorted_insertionSort _ b)
  exact (List.perm_insertionSort _ a).trans (h.trans
    (List.perm_insertionSort _ b).symm)

theorem perm_of_sortStr_eq {a b : List String} (h : sortStr a = sortStr b) :
    a.Perm b := by
  have h1 : a.Perm (sortStr a) := (List.perm_insertionSort _ a).symm
  have h2 : (sortStr b).Perm b := List.perm_insertionSort _ b
  rw [h] at h1
  exact h1.trans h2

theorem perm_of_nodup_mem_iff {a b : List String} (ha : a.Nodup) (hb : b.Nodup)
    (h : ∀ x, x ∈ a ↔ x ∈ b) : a.Perm b := by
  rw [List.perm_iff_count]
  intro x
  by_cases hx : x ∈ a
  · rw [List.count_eq_one_of_mem ha hx, List.count_eq_one_of_mem hb ((h x).1 hx)]
  · rw [List.count_eq_zero_of_not_mem hx,
      List.count_eq_zero_of_not_mem (fun hbx => hx ((h x).2 hbx))]

end SortLemmas

/-- C5.  For a composite entity stored with a non-empty, duplicate-free child
set: redeclaring it with the same child set in any order succeeds and merges
roles as a set union; redeclaring it with a different non-empty child set
raises `InvalidCompositeEntity`; and a declaration whose inline child
definition is empty while an inline definition is required raises
`InvalidCompositeEntity`. -/
theorem handleComposite_spec (s : LUISJsonStructure) (n t : String)
    (rs : List String) (ce : Item)
    (hsimple : s.entities.find? (fun item => item.name == n) = none)
    (hce : s.composites.find? (fun item => item.name == n) = some ce)
    (hne : ce.children ≠ []) (hnd : ce.children.Nodup)
    (hnd' : (compositeChildrenOf t).Nodup) :
    ((∀ x, x ∈ compositeChildrenOf t ↔ x ∈ ce.children) →
      ∃ s', handleComposite s n t rs false = .ok s' ∧
        ∃ ce', s'.composites.find? (fun item => item.name == n) = some ce' ∧
          (∀ r, r ∈ ce'.roles ↔ r ∈ ce.roles ∨ r ∈ rs)) ∧
    (¬ (∀ x, x ∈ compositeChildrenOf t ↔ x ∈ ce.children) →
      compositeChildrenOf t ≠ [] →
      ∃ msg, handleComposite s n t rs false
        = .error (.ex .INVALID_COMPOSITE_ENTITY msg)) ∧
    (∀ t', childDefinitionOf t' = "" →
      ∃ msg, handleComposite s n t' rs true
        = .error (.ex .INVALID_COMPOSITE_ENTITY msg)) := by
  have hlen : (ce.children.length != 0) = true := by
    simp [List.length_eq_zero, hne]
  have hcen : ce.name = n := by simpa using List.find?_some hce
  refine ⟨?_, ?_, ?_⟩
  · intro hset
    have hperm : (compositeChildrenOf t).Perm ce.children :=
      perm_of_nodup_mem_iff hnd' hnd hset
    have hsort : sortStr (compositeChildrenOf t) = sortStr ce.children :=
      sortStr_eq_of_perm hperm
    have hcond : (ce.children.length != 0
        && !(sortStr (compositeChildrenOf t) == sortStr ce.children)) = false := by
      simp [hsort]
    have hupd : (updateFirst (fun item => item.name == n)
        (fun item => { item with
          children := sortStr ce.children ++ sortStr (compositeChildrenOf t) })
        s.composites).find? (fun item => item.name == n)
        = some { ce with
            children := sortStr ce.children ++ sortStr (compositeChildrenOf t) } :=
      find?_updateFirst_of_eq _ _ _ _ hce (fun x => rfl)
    have hany2 : (updateFirst (fun item => item.name == n)
        (fun item => { item with
          children := sortStr ce.children ++ sortStr (compositeChildrenOf t) })
        s.composites).any (fun item => item.name == n) = true :=
      any_of_find?_eq_some _ _ _ hupd
    have hfinal := find?_updateFirst_of_eq (fun item : Item => item.name == n)
      (fun item : Item => { item with roles := mergeRoles item.roles rs })
      _ _ hupd (fun x => rfl)
    have hmain : handleComposite s n t rs false
        = .ok (addItemOrRoleIfNotPresent (setColl s .COMPOSITES
            (updateFirst (fun item => item.name == n)
              (fun item => { item with
                children := sortStr ce.children ++ sortStr (compositeChildrenOf t) })
              s.composites)) .COMPOSITES ce.name rs) := by
      unfold handleComposite
      rw [hsimple]
      have hsortb : (sortStr (compositeChildrenOf t) == sortStr ce.children)
          = true := by
        simp [hsort]
      simp only [hce, hlen, hsortb, Bool.not_true, Bool.and_false,
        Bool.false_eq_true, if_false, if_true]
      rfl
    refine ⟨_, hmain, ?_⟩
    · have hany2' : (getColl (setColl s .COMPOSITES
          (updateFirst (fun item => item.name == n)
            (fun item => { item with
              children := sortStr ce.children ++ sortStr (compositeChildrenOf t) })
            s.composites)) .COMPOSITES).any (fun item => item.name == ce.name)
            = true := by
        rw [getColl_setColl, hcen]
        exact hany2
      have hstep := addItemOrRole_pos (setColl s .COMPOSITES
          (updateFirst (fun item => item.name == n)
            (fun item => { item with
              children := sortStr ce.children ++ sortStr (compositeChildrenOf t) })
            s.composites)) .COMPOSITES ce.name rs hany2'
      rw [getColl_setColl] at hstep
      rw [hstep]
      refine ⟨{ ce with
          children := sortStr ce.children ++ sortStr (compositeChildrenOf t),
          roles := mergeRoles ce.roles rs }, ?_, ?_⟩
      · show (updateFirst (fun item => item.name == ce.name)
            (fun item => { item with roles := mergeRoles item.roles rs })
            (updateFirst (fun item => item.name == n)
              (fun item => { item with
                children := sortStr ce.children ++ sortStr (compositeChildrenOf t) })
              s.composites)).find? (fun item => item.name == n) = _
        rw [hcen]
        rw [hcen] at hfinal
        exact hfinal
      · intro r
        show r ∈ mergeRoles ce.roles rs ↔ r ∈ ce.roles ∨ r ∈ rs
        exact mem_mergeRoles ce.roles rs r
  · intro hset hcs
    have hnperm : ¬ (compositeChildrenOf t).Perm ce.children := by
      intro hperm
      exact hset (fun x => hperm.mem_iff)
    have hsort : ¬ sortStr (compositeChildrenOf t) = sortStr ce.children :=
      fun h => hnperm (perm_of_sortStr_eq h)
    have hcond : (ce.children.length != 0
        && !(sortStr (compositeChildrenOf t) == sortStr ce.children)) = true := by
      simp [hlen, hsort]
    refine ⟨"Composite entity: " ++ n
      ++ " has multiple definition with different children. \n 1. "
      ++ String.intercalate ", " (sortStr (compositeChildrenOf t))
      ++ "\n 2. " ++ String.intercalate ", " (sortStr ce.children), ?_⟩
    unfold handleComposite
    rw [hsimple]
    simp only [Bool.and_false, Bool.false_eq_true, if_false, hce, hcond, if_true]
  · intro t' hdef
    refine ⟨"Composite entity: " ++ n
      ++ " is missing child entity definitions. Child entities are denoted via [entity1, entity2] notation.", ?_⟩
    unfold handleComposite
    rw [hsimple]
    have hb : (childDefinitionOf t' == "" && true) = true := by
      simp [hdef]
    simp only [hb, if_pos]

/-- C5 witness: composite `c1` with children `[a, b]` redeclared as `[b, a]`
succeeds and merges role `r2`. -/
theorem handleComposite_spec_witness :
    ∃ s', handleComposite
        { emptyApp with composites :=
            [{ name := "c1", children := ["a", "b"], roles := ["r1"] }] }
        "c1" "[b, a]" ["r2"]
        false
      = .ok s' ∧
      ∃ ce', s'.composites.find? (fun item => item.name == "c1") = some ce' ∧
        (∀ r, r ∈ ce'.roles ↔ r ∈ (["r1"] : List String)
          ∨ r ∈ (["r2"] : List String)) := by
  have h := handleComposite_spec
    { emptyApp with composites :=
        [{ name := "c1", children := ["a", "b"], roles := ["r1"] }] }
    "c1" "[b, a]" ["r2"]
    { name := "c1", children := ["a", "b"], roles := ["r1"] }
    rfl rfl (by decide) (by decide) (by decide)
  refine h.1 ?_
  intro x
  rw [show compositeChildrenOf "[b, a]" = ["b", "a"] from by decide]
  show x ∈ ["b", "a"] ↔ x ∈ ["a", "b"]
  simp only [List.mem_cons, List.not_mem_nil, or_false]
  constructor
  · rintro (h1 | h1)
    · exact Or.inr h1
    · exact Or.inl h1
  · rintro (h1 | h1)
    · exact Or.inr h1
    · exact Or.inl h1

/-- The opening curly-brace character. -/
def openBrace : Char := Char.ofNat 123

/-- The closing curly-brace character. -/
def closeBrace : Char := Char.ofNat 125

/-- Modelled from the spec: `helpers.isUtterancePattern` (the `helpers` module
is not under src/) — a line is a pattern when it contains an unlabelled
placeholder, i.e. an opening brace with a closing brace somewhere after it. -/
def isUtterancePattern (u : String) : Bool :=
  (u.data.dropWhile (fun c => !(c == openBrace))).contains closeBrace

/-- The no-explicit-labels branch of `parseAndHandleIntent`: a line detected as
a pattern is pushed onto the pattern collection unconditionally, while a plain
utterance is pushed only when no utterance with the same text and intent
exists. -/
def processPlainUtterance (s : LUISJsonStructure) (utterance : String)
    (intentName : String) : LUISJsonStructure :=
  if isUtterancePattern utterance then
    { s with patterns := s.patterns
      ++ [{ pattern := utterance, intent := intentName }] }
  else
    if (s.utterances.find? (fun item =>
        item.text == utterance && item.intent == intentName)).isSome then s
    else
      { s with utterances := s.utterances
        ++ [{ text := utterance, intent := intentName, entities := [] }] }

theorem find?_concat_isSome (p : α → Bool) (l : List α) (x : α)
    (hx : p x = true) : ((l ++ [x]).find? p).isSome = true := by
  induction l with
  | nil => simp [List.find?, hx]
  | cons y ys ih =>
    by_cases hy : p y
    · simp [List.find?_cons_of_pos _ hy]
    · simpa [List.find?_cons_of_neg _ hy] using ih

/-- C9 counterexample: the pattern line `hi \x7bfoo\x7d` processed twice
through the no-label branch yields two identical pattern entries — patterns are
not deduplicated there, contradicting the claim's "in either case". -/
theorem processPlainUtterance_pattern_dup :
    (processPlainUtterance
        (processPlainUtterance emptyApp "hi \x7bfoo\x7d" "i1")
        "hi \x7bfoo\x7d" "i1").patterns
      = [{ pattern := "hi \x7bfoo\x7d", intent := "i1" },
         { pattern := "hi \x7bfoo\x7d", intent := "i1" }] := by
  decide

/-- C9 amended.  A no-label line is classified as a pattern exactly when it
contains an unlabelled placeholder, and otherwise as a plain utterance;
re-adding an identical plain utterance is deduplicated by exact (text, intent)
match, but re-adding an identical pattern line appends a duplicate pattern
entry (patterns are not deduplicated in this branch). -/
theorem processPlainUtterance_spec (s : LUISJsonStructure) (u i : String) :
    (isUtterancePattern u = true →
      (processPlainUtterance s u i).patterns
        = s.patterns ++ [{ pattern := u, intent := i }] ∧
      (processPlainUtterance (processPlainUtterance s u i) u i).patterns
        = s.patterns ++ [{ pattern := u, intent := i },
            { pattern := u, intent := i }] ∧
      (processPlainUtterance s u i).utterances = s.utterances) ∧
    (isUtterancePattern u = false →
      processPlainUtterance (processPlainUtterance s u i) u i
        = processPlainUtterance s u i ∧
      (processPlainUtterance s u i).patterns = s.patterns ∧
      (∃ item ∈ (processPlainUtterance s u i).utterances,
        item.text = u ∧ item.intent = i)) := by
  constructor
  · intro hp
    refine ⟨?_, ?_, ?_⟩
    · simp [processPlainUtterance, hp]
    · simp [processPlainUtterance, hp]
    · simp [processPlainUtterance, hp]
  · intro hp
    by_cases hfound : (s.utterances.find? (fun item =>
        item.text == u && item.intent == i)).isSome = true
    · have h1 : processPlainUtterance s u i = s := by
        simp [processPlainUtterance, hp, hfound]
      refine ⟨by rw [h1, h1], by rw [h1], ?_⟩
      rw [h1]
      obtain ⟨item, hitem⟩ := Option.isSome_iff_exists.1 hfound
      have hmem := List.mem_of_find?_eq_some hitem
      have hprop := List.find?_some hitem
      refine ⟨item, hmem, ?_⟩
      simpa using hprop
    · have h1 : processPlainUtterance s u i
          = { s with utterances := s.utterances
              ++ [{ text := u, intent := i, entities := [] }] } := by
        simp only [processPlainUtterance, hp, Bool.false_eq_true, if_false,
          hfound]
      refine ⟨?_, by rw [h1], ?_⟩
      · have hfound2 : ((s.utterances
            ++ [{ text := u, intent := i, entities := [] : Utterance }]).find?
            (fun item => item.text == u && item.intent == i)).isSome = true :=
          find?_concat_isSome _ _ _ (by simp)
        rw [h1]
        simp only [processPlainUtterance, hp, Bool.false_eq_true, if_false]
        rw [if_pos hfound2]
      · rw [h1]
        exact ⟨{ text := u, intent := i, entities := [] },
          List.mem_append_right _ (List.mem_singleton.2 rfl), rfl, rfl⟩

/-- C9 witness: a placeholder line is a pattern (and duplicates on re-add); a
plain line is an utterance (and deduplicates on re-add). -/
theorem processPlainUtterance_spec_witness :
    (processPlainUtterance emptyApp "hi \x7bx\x7d" "i1").patterns
      = [{ pattern := "hi \x7bx\x7d", intent := "i1" }] ∧
    processPlainUtterance (processPlainUtterance emptyApp "hello" "i1")
        "hello" "i1"
      = processPlainUtterance emptyApp "hello" "i1" := by
  constructor
  · exact ((processPlainUtterance_spec emptyApp "hi \x7bx\x7d" "i1").1
      (by decide)).1
  · exact ((processPlainUtterance_spec emptyApp "hello" "i1").2
      (by decide)).1

/-- Replace occurrences of `pat` by `rep` in a character list (the first
occurrence only, or every occurrence), driven by a character-count fuel so the
recursion is structural. -/
def replaceSubAux (pat rep : List Char) (all : Bool) : Nat → List Char → List Char
  | 0, cs => cs
  | _ + 1, [] => []
  | fuel + 1, c :: cs =>
      if isPrefixOfCharList pat (c :: cs) && pat.length != 0 then
        rep ++ (if all then replaceSubAux pat rep all fuel ((c :: cs).drop pat.length)
                else (c :: cs).drop pat.length)
      else c :: replaceSubAux pat rep all fuel cs

/-- JS `replace` with a global regex: replace every occurrence of `pat`. -/
def replaceAllSub (s pat rep : String) : String :=
  String.mk (replaceSubAux pat.data rep.data true (s.data.length + 1) s.data)

/-- JS `replace` with a string pattern: replace the first occurrence of `pat`. -/
def replaceFirstSub (s pat rep : String) : String :=
  String.mk (replaceSubAux pat.data rep.data false (s.data.length + 1) s.data)

/-- `handleAtPrefix(entity, flatEntityAndRoles)`: strip a leading `@`, then try
to resolve against the flat index.  The source's name lookup compares
`item.entityName`, a field the flat-index records do not define (they expose
`name`), so that comparison never succeeds and resolution proceeds to the role
lookup. -/
def atStripName (e : FoundEntity) : String :=
  trimStr (String.mk (e.entity.data.drop 1))

def handleAtPrefixed (e : FoundEntity) (flat : Option (List FlatItem)) :
    FoundEntity :=
  if e.entity.data.head? == some '@' then
    match flat with
    | some fl =>
        match fl.find? (fun _ => false) with
        | some _ => { e with entity := atStripName e }
        | none =>
          match fl.find? (fun item => item.roles.contains (atStripName e)) with
          | some roleMatch =>
              { e with role := atStripName e, entity := roleMatch.name }
          | none => { e with entity := atStripName e }
    | none => { e with entity := atStripName e }
  else e

/-- One `forEach` step of `handleAtForPattern`: resolve an `@`-prefixed entity
and, when both entity and role resolved, rewrite the first `\x7brole\x7d`
occurrence in the accumulated utterance into `\x7bentity:role\x7d`. -/
def handleAtStep (flat : Option (List FlatItem))
    (acc : String × List FoundEntity) (e : FoundEntity) :
    String × List FoundEntity :=
  if e.entity.data.head? == some '@' then
    if (handleAtPrefixed e flat).entity != ""
        && (handleAtPrefixed e flat).role != "" then
      (replaceFirstSub acc.1
        ("\x7b" ++ (handleAtPrefixed e flat).role ++ "\x7d")
        ("\x7b" ++ (handleAtPrefixed e flat).entity ++ ":"
          ++ (handleAtPrefixed e flat).role ++ "\x7d"),
       acc.2 ++ [handleAtPrefixed e flat])
    else (acc.1, acc.2 ++ [handleAtPrefixed e flat])
  else (acc.1, acc.2 ++ [e])

/-- `handleAtForPattern(utterance, entitiesFound, flatEntityAndRoles)`: when
the line contains a `\x7b@` reference, rewrite all `\x7b@` into `\x7b` and
resolve each `@`-prefixed entity, also rewriting resolved role references in
the utterance text. -/
def handleAtForPattern (utterance : String) (entitiesFound : List FoundEntity)
    (flat : Option (List FlatItem)) : String × List FoundEntity :=
  if containsSubstr utterance "\x7b@" then
    entitiesFound.foldl (handleAtStep flat)
      (replaceAllSub utterance "\x7b@" "\x7b", [])
  else (utterance, entitiesFound)

/-- The mixed-labelling diagnostic of `parseAndHandleIntent`. -/
def mixErrorMsg (ctxText : String) : String :=
  "Utterance \"" ++ ctxText
    ++ "\" has mix of entites with labelled values and ones without. Please update utterance to either include labelled values for all entities or remove labelled values from all entities."

/-- A conditional role-merge step of the pattern-branch registration loop. -/
def condAddRole (s : LUISJsonStructure) (found : Bool) (ty : LUISObjNameEnum)
    (name role : String) : LUISJsonStructure :=
  if found && role != "" then
    addItemOrRoleIfNotPresent s ty name [trimStr role]
  else s

/-- The per-entity registration loop of the pattern branch: donate roles to
whichever kind collections already hold the name, and register the entity as
pattern-any when no kind collection holds it. -/
def regRoleStep (e : FoundEntity) (acc : LUISJsonStructure × Bool)
    (ty : LUISObjNameEnum) : LUISJsonStructure × Bool :=
  (condAddRole acc.1
    (((getColl acc.1 ty).find? (fun item => item.name == e.entity)).isSome)
    ty e.entity e.role,
   acc.2 || ((getColl acc.1 ty).find? (fun item => item.name == e.entity)).isSome)

/-- The closing step of the registration loop: when no kind collection held the
name (the source's conjunction of five none-checks, folded into one
accumulated flag), register the entity as pattern-any (with its role, when
present). -/
def registerPatternFinal (e : FoundEntity) (acc : LUISJsonStructure × Bool) :
    LUISJsonStructure :=
  if !acc.2 then
    if e.role != "" then
      addItemOrRoleIfNotPresent acc.1 .PATTERNANYENTITY e.entity [trimStr e.role]
    else
      addItemIfNotPresent acc.1 .PATTERNANYENTITY e.entity
  else acc.1

/-- The registration loop proper: the five kind collections are visited in
source order, each step testing presence before its conditional role merge. -/
def registerPatternEntity (s : LUISJsonStructure) (e : FoundEntity) :
    LUISJsonStructure :=
  registerPatternFinal e
    ([LUISObjNameEnum.ENTITIES, .COMPOSITES, .CLOSEDLISTS, .REGEX,
      .PREBUILT].foldl (regRoleStep e) (s, false))

/-- The explicit-labels, pattern-any branch of `parseAndHandleIntent`
(reached when some label carries pattern-any type): rewrite `@` references,
reject lines mixing pattern-any labels with labelled entities, add the line as
a structurally-deduplicated pattern, and register the labelled entities. -/
def processPatternUtterance (s : LUISJsonStructure) (utterance : String)
    (ctxText : String) (intentName : String)
    (entitiesFound : List FoundEntity) : Except ParseErr LUISJsonStructure :=
  if (((handleAtForPattern utterance entitiesFound
      s.flatListOfEntityAndRoles).2).filter (fun item =>
        !(item.type == LUISObjNameEnum.PATTERNANYENTITY))).length != 0 then
    .error (.ex .INVALID_INPUT (mixErrorMsg ctxText))
  else
    .ok (((handleAtForPattern utterance entitiesFound
        s.flatListOfEntityAndRoles).2).foldl registerPatternEntity
      (if (s.patterns.find? (fun item => item ==
          ({ pattern := (handleAtForPattern utterance entitiesFound
              s.flatListOfEntityAndRoles).1,
             intent := intentName } : PatternObj))).isSome then s
       else { s with patterns := s.patterns
         ++ [{ pattern := (handleAtForPattern utterance entitiesFound
                s.flatListOfEntityAndRoles).1, intent := intentName }] }))

section PatternBranchLemmas

theorem handleAtPrefixed_type (e : FoundEntity) (fl : Option (List FlatItem)) :
    (handleAtPrefixed e fl).type = e.type := by
  unfold handleAtPrefixed
  split
  · split
    · split
      · rfl
      · split
        · rfl
        · rfl
    · rfl
  · rfl

theorem handleAtStep_snd (fl : Option (List FlatItem))
    (acc : String × List FoundEntity) (e : FoundEntity) :
    ∃ e', (handleAtStep fl acc e).2 = acc.2 ++ [e'] ∧ e'.type = e.type := by
  unfold handleAtStep
  split
  · split
    · exact ⟨_, rfl, handleAtPrefixed_type e fl⟩
    · exact ⟨_, rfl, handleAtPrefixed_type e fl⟩
  · exact ⟨e, rfl, rfl⟩

theorem handleAtFold_types (fl : Option (List FlatItem))
    (es : List FoundEntity) (acc : String × List FoundEntity) :
    ((es.foldl (handleAtStep fl) acc).2).map (fun e => e.type)
      = acc.2.map (fun e => e.type) ++ es.map (fun e => e.type) := by
  induction es generalizing acc with
  | nil => simp
  | cons e es ih =>
    rw [List.foldl_cons, ih]
    obtain ⟨e', he', hty⟩ := handleAtStep_snd fl acc e
    rw [he']
    simp [hty]

theorem handleAtForPattern_types (u : String) (es : List FoundEntity)
    (fl : Option (List FlatItem)) :
    ((handleAtForPattern u es fl).2).map (fun e => e.type)
      = es.map (fun e => e.type) := by
  unfold handleAtForPattern
  split
  · rw [handleAtFold_types]
    simp
  · rfl

theorem patterns_setColl (s : LUISJsonStructure) (ty : LUISObjNameEnum)
    (l : List Item) : (setColl s ty l).patterns = s.patterns := by
  cases ty <;> rfl

theorem utterances_setColl (s : LUISJsonStructure) (ty : LUISObjNameEnum)
    (l : List Item) : (setColl s ty l).utterances = s.utterances := by
  cases ty <;> rfl

theorem patterns_addItemOrRole (s : LUISJsonStructure) (ty : LUISObjNameEnum)
    (v : String) (r : List String) :
    (addItemOrRoleIfNotPresent s ty v r).patterns = s.patterns := by
  simp only [addItemOrRoleIfNotPresent]
  split
  · exact patterns_setColl _ _ _
  · exact patterns_setColl _ _ _

theorem utterances_addItemOrRole (s : LUISJsonStructure) (ty : LUISObjNameEnum)
    (v : String) (r : List String) :
    (addItemOrRoleIfNotPresent s ty v r).utterances = s.utterances := by
  simp only [addItemOrRoleIfNotPresent]
  split
  · exact utterances_setColl _ _ _
  · exact utterances_setColl _ _ _

theorem patterns_addItem (s : LUISJsonStructure) (ty : LUISObjNameEnum)
    (v : String) : (addItemIfNotPresent s ty v).patterns = s.patterns := by
  simp only [addItemIfNotPresent]
  split
  · rfl
  · exact patterns_setColl _ _ _

theorem utterances_addItem (s : LUISJsonStructure) (ty : LUISObjNameEnum)
    (v : String) : (addItemIfNotPresent s ty v).utterances = s.utterances := by
  simp only [addItemIfNotPresent]
  split
  · rfl
  · exact utterances_setColl _ _ _

theorem patterns_condAddRole (s : LUISJsonStructure) (b : Bool)
    (ty : LUISObjNameEnum) (v r : String) :
    (condAddRole s b ty v r).patterns = s.patterns := by
  unfold condAddRole
  split
  · exact patterns_addItemOrRole _ _ _ _
  · rfl

theorem utterances_condAddRole (s : LUISJsonStructure) (b : Bool)
    (ty : LUISObjNameEnum) (v r : String) :
    (condAddRole s b ty v r).utterances = s.utterances := by
  unfold condAddRole
  split
  · exact utterances_addItemOrRole _ _ _ _
  · rfl

theorem patterns_regRoleStep (e : FoundEntity) (acc : LUISJsonStructure × Bool)
    (ty : LUISObjNameEnum) :
    (regRoleStep e acc ty).1.patterns = acc.1.patterns :=
  patterns_condAddRole _ _ _ _ _

theorem utterances_regRoleStep (e : FoundEntity)
    (acc : LUISJsonStructure × Bool) (ty : LUISObjNameEnum) :
    (regRoleStep e acc ty).1.utterances = acc.1.utterances :=
  utterances_condAddRole _ _ _ _ _

theorem patterns_foldl_regRoleStep (e : FoundEntity)
    (tys : List LUISObjNameEnum) (acc : LUISJsonStructure × Bool) :
    (tys.foldl (regRoleStep e) acc).1.patterns = acc.1.patterns := by
  induction tys generalizing acc with
  | nil => rfl
  | cons ty tys ih =>
    rw [List.foldl_cons, ih, patterns_regRoleStep]

theorem utterances_foldl_regRoleStep (e : FoundEntity)
    (tys : List LUISObjNameEnum) (acc : LUISJsonStructure × Bool) :
    (tys.foldl (regRoleStep e) acc).1.utterances = acc.1.utterances := by
  induction tys generalizing acc with
  | nil => rfl
  | cons ty tys ih =>
    rw [List.foldl_cons, ih, utterances_regRoleStep]

theorem patterns_registerPatternFinal (e : FoundEntity)
    (acc : LUISJsonStructure × Bool) :
    (registerPatternFinal e acc).patterns = acc.1.patterns := by
  unfold registerPatternFinal
  split
  · split
    · exact patterns_addItemOrRole _ _ _ _
    · exact patterns_addItem _ _ _
  · rfl

theorem utterances_registerPatternFinal (e : FoundEntity)
    (acc : LUISJsonStructure × Bool) :
    (registerPatternFinal e acc).utterances = acc.1.utterances := by
  unfold registerPatternFinal
  split
  · split
    · exact utterances_addItemOrRole _ _ _ _
    · exact utterances_addItem _ _ _
  · rfl

theorem patterns_registerPatternEntity (s : LUISJsonStructure)
    (e : FoundEntity) : (registerPatternEntity s e).patterns = s.patterns := by
  unfold registerPatternEntity
  rw [patterns_registerPatternFinal, patterns_foldl_regRoleStep]

theorem utterances_registerPatternEntity (s : LUISJsonStructure)
    (e : FoundEntity) :
    (registerPatternEntity s e).utterances = s.utterances := by
  unfold registerPatternEntity
  rw [utterances_registerPatternFinal, utterances_foldl_regRoleStep]

theorem patterns_foldl_register (es : List FoundEntity)
    (s : LUISJsonStructure) :
    (es.foldl registerPatternEntity s).patterns = s.patterns := by
  induction es generalizing s with
  | nil => rfl
  | cons e es ih =>
    rw [List.foldl_cons, ih, patterns_registerPatternEntity]

theorem utterances_foldl_register (es : List FoundEntity)
    (s : LUISJsonStructure) :
    (es.foldl registerPatternEntity s).utterances = s.utterances := by
  induction es generalizing s with
  | nil => rfl
  | cons e es ih =>
    rw [List.foldl_cons, ih, utterances_registerPatternEntity]

theorem string_append_assoc (a b c : String) :
    (a ++ b) ++ c = a ++ (b ++ c) := by
  cases a with
  | mk da =>
    cases b with
    | mk db =>
      cases c with
      | mk dc =>
        show String.mk ((da ++ db) ++ dc) = String.mk (da ++ (db ++ dc))
        rw [List.append_assoc]

end PatternBranchLemmas

/-- C2.  For an utterance line whose labels include a pattern-any entity: if
any label is not of pattern-any type the parse fails with `InvalidInput` and
the message cites the mix of entities with labelled values; if all labels are
pattern-any the line is added as a pattern, deduplicated by structural
equality, and the utterance collection is left unchanged. -/
theorem processPatternUtterance_spec (s : LUISJsonStructure)
    (u ctx i : String) (es : List FoundEntity) :
    (es.any (fun e => !(e.type == LUISObjNameEnum.PATTERNANYENTITY)) = true →
      ∃ pre post, processPatternUtterance s u ctx i es
        = .error (.ex .INVALID_INPUT
          (pre ++ "has mix of entites with labelled values and ones without"
            ++ post))) ∧
    (es.all (fun e => e.type == LUISObjNameEnum.PATTERNANYENTITY) = true →
      ∃ s', processPatternUtterance s u ctx i es = .ok s' ∧
        s'.patterns
          = (if (s.patterns.find? (fun item => item ==
                ({ pattern :=
                      (handleAtForPattern u es s.flatListOfEntityAndRoles).1,
                    intent := i } : PatternObj))).isSome then
              s.patterns
            else s.patterns
              ++ [{ pattern :=
                      (handleAtForPattern u es s.flatListOfEntityAndRoles).1,
                    intent := i }]) ∧
        s'.utterances = s.utterances) := by
  have hcount : ((handleAtForPattern u es s.flatListOfEntityAndRoles).2.filter
        (fun item => !(item.type == LUISObjNameEnum.PATTERNANYENTITY))).length
      = (es.filter (fun item =>
          !(item.type == LUISObjNameEnum.PATTERNANYENTITY))).length := by
    rw [← List.countP_eq_length_filter, ← List.countP_eq_length_filter]
    have h1 := List.countP_map
      (fun ty => !(ty == LUISObjNameEnum.PATTERNANYENTITY))
      (fun e : FoundEntity => e.type)
      ((handleAtForPattern u es s.flatListOfEntityAndRoles).2)
    have h2 := List.countP_map
      (fun ty => !(ty == LUISObjNameEnum.PATTERNANYENTITY))
      (fun e : FoundEntity => e.type) es
    simp only [Function.comp_def] at h1 h2
    rw [← h1, ← h2, handleAtForPattern_types]
  constructor
  · intro hmix
    obtain ⟨x, hxmem, hx⟩ := List.any_eq_true.1 hmix
    have hpos : 0 < (es.filter (fun item =>
        !(item.type == LUISObjNameEnum.PATTERNANYENTITY))).length :=
      List.length_pos.2 (List.ne_nil_of_mem (List.mem_filter.2 ⟨hxmem, hx⟩))
    have hcond : (((handleAtForPattern u es
        s.flatListOfEntityAndRoles).2.filter (fun item =>
          !(item.type == LUISObjNameEnum.PATTERNANYENTITY))).length != 0)
        = true := by
      rw [hcount]
      simpa using Nat.pos_iff_ne_zero.1 hpos
    refine ⟨("Utterance \"" ++ ctx) ++ "\" ",
      ". Please update utterance to either include labelled values for all entities or remove labelled values from all entities.",
      ?_⟩
    have hmsg : mixErrorMsg ctx
        = (("Utterance \"" ++ ctx) ++ "\" ")
          ++ "has mix of entites with labelled values and ones without"
          ++ ". Please update utterance to either include labelled values for all entities or remove labelled values from all entities." := by
      unfold mixErrorMsg
      simp only [string_append_assoc]
      congr 1
    rw [← hmsg]
    unfold processPatternUtterance
    rw [if_pos hcond]
  · intro hall
    have hnil : ((handleAtForPattern u es s.flatListOfEntityAndRoles).2.filter
        (fun item => !(item.type == LUISObjNameEnum.PATTERNANYENTITY))).length
        = 0 := by
      rw [hcount, List.length_eq_zero, List.filter_eq_nil_iff]
      intro a ha
      have := List.all_eq_true.1 hall a ha
      simpa using this
    have hcond : (((handleAtForPattern u es
        s.flatListOfEntityAndRoles).2.filter (fun item =>
          !(item.type == LUISObjNameEnum.PATTERNANYENTITY))).length != 0)
        = false := by
      simp [hnil]
    refine ⟨((handleAtForPattern u es s.flatListOfEntityAndRoles).2).foldl
        registerPatternEntity
        (if (s.patterns.find? (fun item => item ==
            ({ pattern :=
                  (handleAtForPattern u es s.flatListOfEntityAndRoles).1,
                intent := i } : PatternObj))).isSome then s
         else { s with patterns := s.patterns
           ++ [{ pattern :=
                  (handleAtForPattern u es s.flatListOfEntityAndRoles).1,
                 intent := i }] }), ?_, ?_, ?_⟩
    · unfold processPatternUtterance
      rw [hcond]
      rfl
    · rw [patterns_foldl_register]
      split
      · rfl
      · rfl
    · rw [utterances_foldl_register]
      split
      · rfl
      · rfl

/-- C2 witness: a line with one pattern-any label and one labelled simple
entity raises `InvalidInput` citing the mix of labelled values. -/
theorem processPatternUtterance_spec_witness :
    ∃ pre post, processPatternUtterance emptyApp "hi" "ctxline" "i1"
        [{ entity := "a", type := .PATTERNANYENTITY },
         { entity := "b", type := .ENTITIES, value := "x" }]
      = .error (.ex .INVALID_INPUT
        (pre ++ "has mix of entites with labelled values and ones without"
          ++ post)) := by
  exact (processPatternUtterance_spec emptyApp "hi" "ctxline" "i1"
    [{ entity := "a", type := .PATTERNANYENTITY },
     { entity := "b", type := .ENTITIES, value := "x" }]).1 (by decide)

/-! ### C10 — name uniqueness across the kind collections -/

/-- Message of the `SYNONYMS_NOT_A_LIST` throw inside `handleClosedList`
(`BuildDiagnostic` context rendering abstracted to the message text). -/
def synonymsNotListMsg (entityName line : String) : String :=
  "Closed list " ++ entityName ++ " has synonyms list \"" ++ line
    ++ "\" without a normalized value."

/-- `line.replace(/:$/g, '')`: drop a single trailing colon. -/
def dropTrailingColon (l : List Char) : List Char :=
  match l.reverse with
  | ':' :: rest => rest.reverse
  | _ => l

/-- `line.replace(/:$/g, '').trim()` — sublist header normalisation. -/
def normalizedValueOf (line : String) : String :=
  trimStr (String.mk (dropTrailingColon line.data))

/-- The loop state of `handleClosedList`: the sublists already on the record,
together with the sublist `nvExists` points at — a fresh, not-yet-pushed
sublist (`addNV` true), or the canonical form of an existing sublist that the
source mutates through the reference. -/
abbrev CLState := List SubList × Option SubList × Option String

/-- The record's sublists once a pending fresh sublist is pushed
(the source's `if (addNV) closedListExists.subLists.push(nvExists)`). -/
def flushPending (st : CLState) : List SubList :=
  match st.2.1 with
  | some sl => st.1 ++ [sl]
  | none => st.1

/-- A header line `value:` of `handleClosedList`: flush any pending fresh
sublist, then point `nvExists` at the matching existing sublist, or open a
fresh one when none matches the normalised value. -/
def clColonStep (st : CLState) (line : String) : CLState :=
  if ((flushPending st).find? (fun x =>
      x.canonicalForm == normalizedValueOf line)).isSome then
    (flushPending st, none, some (normalizedValueOf line))
  else
    (flushPending st, some { canonicalForm := normalizedValueOf line }, none)

/-- One synonym of a synonym line: push it (deduplicated by exact string) into
the sublist `nvExists` points at; a synonym line before any header is fatal
`SYNONYMS_NOT_A_LIST`. -/
def clSynItem (entityName line : String) (st : CLState) (item : String) :
    Except ParseErr CLState :=
  match st.2.1 with
  | some sl =>
      .ok (st.1,
        some { sl with list := if sl.list.contains item then sl.list
                               else sl.list ++ [item] }, st.2.2)
  | none =>
      match st.2.2 with
      | some cf =>
          .ok (updateFirst (fun x => x.canonicalForm == cf)
            (fun x => { x with list := if x.list.contains item then x.list
                                       else x.list ++ [item] }) st.1,
            none, some cf)
      | none =>
          .error (.ex .SYNONYMS_NOT_A_LIST (synonymsNotListMsg entityName line))

/-- One `listLines.forEach` step of `handleClosedList`: a line ending in `:`
(tested on the lower-cased line, as in the source) opens a sublist; any other
line is split on `,`/`;` into trimmed synonyms of the current sublist. -/
def clLineStep (entityName : String) (st : CLState) (line : String) :
    Except ParseErr CLState :=
  if (toLowerStr line).data.getLast? == some ':' then
    .ok (clColonStep st line)
  else
    ((splitStr (fun c => c == ',' || c == ';') line).map trimStr).foldlM
      (clSynItem entityName line) st

/-- The record written back at the end of `handleClosedList`: the accumulated
sublists (with any pending one flushed) and the live role merge. -/
def clFinish (base : Item) (roles : List String) (st : CLState) : Item :=
  { base with subLists := flushPending st,
              roles := mergeUnique base.roles roles }

/-- `handleClosedList(parsedContent, entityName, listLines, entityRoles,
currentLine)`: absorb a same-named simple entity, find or create the closed
list record of the name, fold the list lines into its sublists, then merge the
roles; the record is written back in place when it already existed and appended
to the collection otherwise. -/
def handleClosedList (s : LUISJsonStructure) (entityName : String)
    (listLines : List String) (entityRoles : List String) :
    Except ParseErr LUISJsonStructure :=
  match VerifyAndUpdateSimpleEntityCollection s entityName "List" with
  | .error e => .error e
  | .ok (rolesImport, s1) =>
      match s1.closedLists.find? (fun item => item.name == entityName) with
      | some cl =>
          match listLines.foldlM (clLineStep entityName)
              ((cl.subLists, none, none) : CLState) with
          | .error e => .error e
          | .ok st =>
              .ok { s1 with
                closedLists := updateFirst (fun item => item.name == entityName)
                  (fun _ => clFinish cl (mergeUnique entityRoles rolesImport) st)
                  s1.closedLists }
      | none =>
          match listLines.foldlM (clLineStep entityName)
              (([], none, none) : CLState) with
          | .error e => .error e
          | .ok st =>
              .ok { s1 with closedLists := s1.closedLists
                ++ [clFinish { name := entityName }
                      (mergeUnique entityRoles rolesImport) st] }

/-- A declaration or resolver operation over the registry's kind collections:
the three insertion paths the registry exposes. -/
inductive RegOp where
  | addItem (ty : LUISObjNameEnum) (value : String)
  | addOrRole (ty : LUISObjNameEnum) (value : String) (roles : List String)
  | closedList (entityName : String) (listLines : List String)
      (entityRoles : List String)

/-- Apply one registry operation. -/
def applyRegOp (s : LUISJsonStructure) : RegOp → Except ParseErr LUISJsonStructure
  | .addItem ty v => .ok (addItemIfNotPresent s ty v)
  | .addOrRole ty v rs => .ok (addItemOrRoleIfNotPresent s ty v rs)
  | .closedList n ls rs => handleClosedList s n ls rs

/-- Run a sequence of registry operations, stopping at the first throw. -/
def runRegOps (s : LUISJsonStructure) (ops : List RegOp) :
    Except ParseErr LUISJsonStructure :=
  ops.foldlM applyRegOp s

/-- Each name occurs in at most one record of each kind collection (intents,
simple entities, composites, closed lists, regex entities, prebuilt entities,
pattern-any entities, phrase lists). -/
def uniqueNames (s : LUISJsonStructure) : Prop :=
  ((s.intents.map (fun i => i.name)).Nodup) ∧
  ((s.entities.map (fun i => i.name)).Nodup) ∧
  ((s.composites.map (fun i => i.name)).Nodup) ∧
  ((s.closedLists.map (fun i => i.name)).Nodup) ∧
  ((s.regex_entities.map (fun i => i.name)).Nodup) ∧
  ((s.prebuiltEntities.map (fun i => i.name)).Nodup) ∧
  ((s.patternAnyEntities.map (fun i => i.name)).Nodup) ∧
  ((s.model_features.map (fun i => i.name)).Nodup)

instance (s : LUISJsonStructure) : Decidable (uniqueNames s) := by
  unfold uniqueNames
  infer_instance

section UniqueNamesLemmas

theorem uniqueNames_coll (s : LUISJsonStructure) (h : uniqueNames s)
    (ty : LUISObjNameEnum) :
    ((getColl s ty).map (fun i => i.name)).Nodup := by
  obtain ⟨h1, h2, h3, h4, h5, h6, h7, h8⟩ := h
  cases ty
  · exact h1
  · exact h2
  · exact h3
  · exact h4
  · exact h5
  · exact h6
  · exact h7

theorem uniqueNames_setColl (s : LUISJsonStructure) (ty : LUISObjNameEnum)
    (l : List Item) (h : uniqueNames s)
    (hl : (l.map (fun i => i.name)).Nodup) : uniqueNames (setColl s ty l) := by
  obtain ⟨h1, h2, h3, h4, h5, h6, h7, h8⟩ := h
  cases ty
  · exact ⟨hl, h2, h3, h4, h5, h6, h7, h8⟩
  · exact ⟨h1, hl, h3, h4, h5, h6, h7, h8⟩
  · exact ⟨h1, h2, hl, h4, h5, h6, h7, h8⟩
  · exact ⟨h1, h2, h3, hl, h5, h6, h7, h8⟩
  · exact ⟨h1, h2, h3, h4, hl, h6, h7, h8⟩
  · exact ⟨h1, h2, h3, h4, h5, hl, h7, h8⟩
  · exact ⟨h1, h2, h3, h4, h5, h6, hl, h8⟩

theorem uniqueNames_filter_entities (s : LUISJsonStructure)
    (q : Item → Bool) (h : uniqueNames s) :
    uniqueNames { s with entities := s.entities.filter q } := by
  obtain ⟨h1, h2, h3, h4, h5, h6, h7, h8⟩ := h
  exact ⟨h1, h2.sublist ((s.entities.filter_sublist).map _),
    h3, h4, h5, h6, h7, h8⟩

theorem map_name_updateFirst (p : Item → Bool) (f : Item → Item)
    (hf : ∀ x, p x = true → (f x).name = x.name) (l : List Item) :
    (updateFirst p f l).map (fun i => i.name) = l.map (fun i => i.name) := by
  induction l with
  | nil => rfl
  | cons x xs ih =>
    unfold updateFirst
    by_cases hp : p x = true
    · rw [if_pos hp]
      simp [hf x hp]
    · rw [if_neg hp]
      simp [ih]

theorem not_mem_names_of_any_false (l : List Item) (v : String)
    (h : (l.any (fun item => item.name == v)) = false) :
    v ∉ l.map (fun i => i.name) := by
  intro hmem
  obtain ⟨x, hx, hxv⟩ := List.mem_map.1 hmem
  rw [List.any_eq_false] at h
  exact h x hx (by simp [hxv])

theorem not_mem_names_of_find?_none (l : List Item) (v : String)
    (h : l.find? (fun item => item.name == v) = none) :
    v ∉ l.map (fun i => i.name) := by
  intro hmem
  obtain ⟨x, hx, hxv⟩ := List.mem_map.1 hmem
  have hfx := List.find?_eq_none.1 h x hx
  simp [hxv] at hfx

theorem nodup_names_append (l : List Item) (v : String) (it : Item)
    (hname : it.name = v)
    (hn : (l.map (fun i => i.name)).Nodup)
    (hv : v ∉ l.map (fun i => i.name)) :
    ((l ++ [it]).map (fun i => i.name)).Nodup := by
  rw [List.map_append, List.nodup_append]
  refine ⟨hn, by simp, ?_⟩
  intro a ha hb
  simp only [List.map_cons, List.map_nil, List.mem_singleton] at hb
  rw [hb, hname] at ha
  exact hv ha

theorem uniqueNames_addItem (s : LUISJsonStructure) (ty : LUISObjNameEnum)
    (v : String) (h : uniqueNames s) :
    uniqueNames (addItemIfNotPresent s ty v) := by
  by_cases hany : ((getColl s ty).any (fun item => item.name == v)) = true
  · have hrw : addItemIfNotPresent s ty v = s := by
      unfold addItemIfNotPresent
      simp [hany]
    rw [hrw]
    exact h
  · have hrw : addItemIfNotPresent s ty v
        = setColl s ty (getColl s ty ++ [{ name := v }]) := by
      unfold addItemIfNotPresent
      simp [hany]
    rw [hrw]
    exact uniqueNames_setColl s ty _ h
      (nodup_names_append _ v _ rfl (uniqueNames_coll s h ty)
        (not_mem_names_of_any_false _ v (by simpa using hany)))

theorem uniqueNames_addOrRole (s : LUISJsonStructure) (ty : LUISObjNameEnum)
    (v : String) (rs : List String) (h : uniqueNames s) :
    uniqueNames (addItemOrRoleIfNotPresent s ty v rs) := by
  by_cases hany : ((getColl s ty).any (fun item => item.name == v)) = true
  · rw [addItemOrRole_pos s ty v rs hany]
    refine uniqueNames_setColl s ty _ h ?_
    rw [map_name_updateFirst (fun item => item.name == v)
      (fun item => { item with roles := mergeRoles item.roles rs })
      (fun x _ => rfl)]
    exact uniqueNames_coll s h ty
  · have hrw : addItemOrRoleIfNotPresent s ty v rs
        = setColl s ty (getColl s ty
            ++ [{ name := v, roles := if ty == .INTENT then [] else rs }]) := by
      unfold addItemOrRoleIfNotPresent
      simp [hany]
    rw [hrw]
    exact uniqueNames_setColl s ty _ h
      (nodup_names_append _ v _ rfl (uniqueNames_coll s h ty)
        (not_mem_names_of_any_false _ v (by simpa using hany)))

theorem verify_state (s : LUISJsonStructure) (n t : String) (ri : List String)
    (s1 : LUISJsonStructure)
    (hok : VerifyAndUpdateSimpleEntityCollection s n t = .ok (ri, s1)) :
    s1 = s
      ∨ s1 = { s with
          entities := s.entities.filter (fun item => !(item.name == n)) } := by
  unfold VerifyAndUpdateSimpleEntityCollection at hok
  cases hse : s.entities.find? (fun item => item.name == n) with
  | none =>
    rw [hse] at hok
    cases hutt : s.utterances.find? (fun item =>
        (item.entities.find? (fun e => e.entity == n)).isSome) with
    | none =>
      rw [hutt] at hok
      simp at hok
      exact Or.inl hok.2.symm
    | some utt =>
      rw [hutt] at hok
      simp only [] at hok
      split at hok
      · exact absurd hok (by simp)
      · simp at hok
        exact Or.inl hok.2.symm
  | some se =>
    rw [hse] at hok
    by_cases ht : (t == "Phrase List") = true
    · simp only [ht, if_pos] at hok
      cases hutt : s.utterances.find? (fun item =>
          (item.entities.find? (fun e => e.entity == n)).isSome) with
      | none =>
        rw [hutt] at hok
        simp at hok
        exact Or.inl hok.2.symm
      | some utt =>
        rw [hutt] at hok
        simp only [] at hok
        split at hok
        · exact absurd hok (by simp)
        · simp at hok
          exact Or.inl hok.2.symm
    · simp only [ht, if_neg] at hok
      cases hutt : s.utterances.find? (fun item =>
          (item.entities.find? (fun e => e.entity == n)).isSome) with
      | none =>
        rw [hutt] at hok
        simp at hok
        exact Or.inr hok.2.symm
      | some utt =>
        rw [hutt] at hok
        simp only [] at hok
        split at hok
        · exact absurd hok (by simp)
        · simp at hok
          exact Or.inr hok.2.symm

theorem uniqueNames_handleClosedList (s : LUISJsonStructure) (n : String)
    (ls rs : List String) (s' : LUISJsonStructure) (h : uniqueNames s)
    (hok : handleClosedList s n ls rs = .ok s') : uniqueNames s' := by
  unfold handleClosedList at hok
  split at hok
  · exact absurd hok (by simp)
  · rename_i rolesImport s1 hv
    have h1 : uniqueNames s1 := by
      rcases verify_state s n "List" rolesImport s1 hv with h' | h'
      · rw [h']
        exact h
      · rw [h']
        exact uniqueNames_filter_entities s _ h
    obtain ⟨g1, g2, g3, g4, g5, g6, g7, g8⟩ := h1
    split at hok
    · rename_i cl hfind
      split at hok
      · exact absurd hok (by simp)
      · rename_i st hfold
        have hs' : s' = { s1 with
            closedLists := updateFirst (fun item => item.name == n)
              (fun _ => clFinish cl (mergeUnique rs rolesImport) st)
              s1.closedLists } := by
          injection hok with hh
          exact hh.symm
        have hcl : cl.name = n := by simpa using List.find?_some hfind
        have hf : ∀ x : Item, (x.name == n) = true →
            ((fun _ => clFinish cl (mergeUnique rs rolesImport) st) x).name
              = x.name := by
          intro x hx
          have hxn : x.name = n := by simpa using hx
          show (clFinish cl (mergeUnique rs rolesImport) st).name = x.name
          rw [hxn]
          exact hcl
        rw [hs']
        refine ⟨g1, g2, g3, ?_, g5, g6, g7, g8⟩
        rw [map_name_updateFirst (fun item => item.name == n)
          (fun _ => clFinish cl (mergeUnique rs rolesImport) st) hf]
        exact g4
    · rename_i hfind
      split at hok
      · exact absurd hok (by simp)
      · rename_i st hfold
        have hs' : s' = { s1 with
            closedLists := s1.closedLists
              ++ [clFinish { name := n } (mergeUnique rs rolesImport) st] } := by
          injection hok with hh
          exact hh.symm
        rw [hs']
        refine ⟨g1, g2, g3, ?_, g5, g6, g7, g8⟩
        exact nodup_names_append _ n _ rfl g4
          (not_mem_names_of_find?_none _ _ hfind)

end UniqueNamesLemmas

/-- **C10.** In every kind collection of the registry (intents, simple
entities, composites, closed lists, regex entities, prebuilt entities,
pattern-any entities, phrase lists), each name occurs in at most one record
after every sequence of declaration and resolver operations: each insertion
path (`addItemIfNotPresent`, `addItemOrRoleIfNotPresent`, `handleClosedList`)
first checks for an existing record of that name and merges into it instead of
pushing a second record, so name uniqueness is preserved by any `runRegOps`
run that returns a registry. -/
theorem runRegOps_uniqueNames (ops : List RegOp) :
    ∀ (s s' : LUISJsonStructure), uniqueNames s →
      runRegOps s ops = .ok s' → uniqueNames s' := by
  induction ops with
  | nil =>
    intro s s' h hrun
    unfold runRegOps at hrun
    simp only [List.foldlM_nil] at hrun
    injection hrun with hh
    rw [← hh]
    exact h
  | cons op ops ih =>
    intro s s' h hrun
    unfold runRegOps at hrun
    rw [List.foldlM_cons] at hrun
    cases hap : applyRegOp s op with
    | error e =>
      rw [hap] at hrun
      exact Except.noConfusion hrun
    | ok s1 =>
      rw [hap] at hrun
      have h1 : uniqueNames s1 := by
        cases op with
        | addItem ty v =>
          have hs1 : s1 = addItemIfNotPresent s ty v := by
            have := hap
            unfold applyRegOp at this
            injection this with hh
            exact hh.symm
          rw [hs1]
          exact uniqueNames_addItem s ty v h
        | addOrRole ty v rolesArg =>
          have hs1 : s1 = addItemOrRoleIfNotPresent s ty v rolesArg := by
            have := hap
            unfold applyRegOp at this
            injection this with hh
            exact hh.symm
          rw [hs1]
          exact uniqueNames_addOrRole s ty v rolesArg h
        | closedList cn cls crs =>
          exact uniqueNames_handleClosedList s cn cls crs s1 h hap
      exact ih s1 s' h1 hrun

/-- C10 witness: three operations — a simple entity, a role merge into it, and
a closed list built from a header and a synonym line — run from the empty
registry and keep every collection's names duplicate-free. -/
theorem runRegOps_uniqueNames_witness :
    uniqueNames ({ emptyApp with
      entities := [{ name := "a", roles := ["r1"] }],
      closedLists :=
        [{ name := "colors", roles := ["cr"],
           subLists :=
             [{ canonicalForm := "red", list := ["r", "crimson"] }] }] }) :=
  runRegOps_uniqueNames
    [.addItem .ENTITIES "a", .addOrRole .ENTITIES "a" ["r1"],
     .closedList "colors" ["red:", "r, crimson"] ["cr"]]
    emptyApp _ (by decide) (by decide)

end LuParse
